import Mathlib

/-!
Verification of cloudflare-worker-jwt against its specification.

The development shallowly embeds the library's source (src/index.ts and
src/utils.ts, the revisions cited by the claims) in Lean:

* JavaScript strings are modelled as `List Char` (a list of Unicode scalar
  values); byte sequences (`Uint8Array`, binary strings) as `List Nat` with
  the bound `b < 256` carried as a hypothesis where it matters.
* `JSON.stringify` / `JSON.parse` are modelled over a JSON value type whose
  numbers are integers (the claims only exercise integer-valued claims such
  as `iat`, `nbf`, `exp`); fraction and exponent number forms, and JS
  string-to-number coercion of non-numeric claim values, are outside the
  model.
* The WebCrypto provider (`crypto.subtle`) is external: signing is a
  parameter `sig : List Nat → List Nat` and signature verification a
  parameter `verifOk : List Nat → List Nat → Bool`; key import is modelled
  by the dispatch decision it makes (which underlying import is called with
  which material).
* Thrown JS exceptions are modelled by explicit result constructors
  (`raised`, `none`), mutation of the caller's payload object by explicit
  state passing (`sign` returns the post-call payload object).
-/

namespace JwtModel

/-- Shorthand: the character list of a string literal. -/
def cs (s : String) : List Char := s.data

/-- The double-quote character. -/
def dquote : Char := Char.ofNat 34

/-- The backslash character. -/
def bslash : Char := Char.ofNat 92

/-- The opening curly-brace character. -/
def lbrace : Char := Char.ofNat 123

/-- The closing curly-brace character. -/
def rbrace : Char := Char.ofNat 125

/-! ## Codec: base64, base64url (src/utils.ts)

`btoa` and `atob` are the host platform's base64 encoder and forgiving
base64 decoder (WHATWG Infra): `atob` removes ASCII whitespace, accepts
omitted padding, rejects inputs whose post-whitespace length is 1 mod 4 or
that contain characters outside the alphabet; `none` models the thrown
`InvalidCharacterError`. -/

/-- Character of a 6-bit value in the standard base64 alphabet. -/
def base64Char (n : Nat) : Char :=
  if n < 26 then Char.ofNat (65 + n)
  else if n < 52 then Char.ofNat (97 + (n - 26))
  else if n < 62 then Char.ofNat (48 + (n - 52))
  else if n = 62 then '+'
  else '/'

/-- Index of a character in the standard base64 alphabet. -/
def base64Index (c : Char) : Option Nat :=
  let n := c.toNat
  if 65 ≤ n ∧ n ≤ 90 then some (n - 65)
  else if 97 ≤ n ∧ n ≤ 122 then some (n - 97 + 26)
  else if 48 ≤ n ∧ n ≤ 57 then some (n - 48 + 52)
  else if c = '+' then some 62
  else if c = '/' then some 63
  else none

/-- base64-encode a byte list, three bytes to four characters, padded
with `=`; the model of the platform `btoa` applied to a binary string. -/
def btoa : List Nat → List Char
  | [] => []
  | [b0] => [base64Char (b0 / 4), base64Char (b0 % 4 * 16), '=', '=']
  | [b0, b1] => [base64Char (b0 / 4), base64Char (b0 % 4 * 16 + b1 / 16),
      base64Char (b1 % 16 * 4), '=']
  | b0 :: b1 :: b2 :: rest =>
      base64Char (b0 / 4) :: base64Char (b0 % 4 * 16 + b1 / 16) ::
      base64Char (b1 % 16 * 4 + b2 / 64) :: base64Char (b2 % 64) :: btoa rest

/-- ASCII whitespace (WHATWG Infra): TAB, LF, FF, CR, SPACE. -/
def isAsciiWs (c : Char) : Bool :=
  c.toNat = 9 ∨ c.toNat = 10 ∨ c.toNat = 12 ∨ c.toNat = 13 ∨ c.toNat = 32

/-- Group a list of 6-bit values back into bytes; `none` on a trailing
group of a single value (length 1 mod 4). -/
def sextetsToBytes : List Nat → Option (List Nat)
  | [] => some []
  | [_] => none
  | [s0, s1] => some [s0 * 4 + s1 / 16]
  | [s0, s1, s2] => some [s0 * 4 + s1 / 16, s1 % 16 * 16 + s2 / 4]
  | s0 :: s1 :: s2 :: s3 :: rest =>
      (sextetsToBytes rest).map
        (fun bs => (s0 * 4 + s1 / 16) :: (s1 % 16 * 16 + s2 / 4) ::
          (s2 % 4 * 64 + s3) :: bs)

/-- Strip one or two trailing `=` from a whitespace-free input whose
length is a multiple of four (the padding step of forgiving base64). -/
def stripPad (t : List Char) : List Char :=
  if t.length % 4 = 0 then
    match t.reverse with
    | '=' :: '=' :: r => r.reverse
    | '=' :: r => r.reverse
    | _ => t
  else t

/-- Map a fallible function over a list, failing as a whole if any
element fails. -/
def mapMOpt (f : α → Option β) : List α → Option (List β)
  | [] => some []
  | a :: r =>
    match f a, mapMOpt f r with
    | some b, some bs => some (b :: bs)
    | _, _ => none

/-- Forgiving base64 decode; the model of the platform `atob`.
`none` models the thrown `InvalidCharacterError`. -/
def atob (s : List Char) : Option (List Nat) :=
  let t := stripPad (s.filter (fun c => !(isAsciiWs c)))
  (mapMOpt base64Index t).bind sextetsToBytes

/-- Replace every occurrence of one character by another; the model of
the JS `String.prototype.replace` with a single-character global regex. -/
def replaceChar (a b : Char) (s : List Char) : List Char :=
  s.map (fun c => if c = a then b else c)

/-- Model of `.replace(/\s/g, "")`. -/
def stripWs (s : List Char) : List Char :=
  s.filter (fun c => !(isAsciiWs c))

/-- utils.ts `bytesToByteString` / `byteStringToBytes` composed with
`charCodeAt` assignment into a `Uint8Array`: each scalar value is taken
modulo 256 (the claims only exercise code points below 256, where this is
the identity). -/
def byteStringToBytes (s : List Char) : List Nat :=
  s.map (fun c => c.toNat % 256)

/-- utils.ts `textToUint8Array` (an alias of `byteStringToBytes`). -/
def textToUint8Array (s : List Char) : List Nat :=
  byteStringToBytes s

/-- utils.ts `arrayBufferToBase64String`. -/
def arrayBufferToBase64String (bytes : List Nat) : List Char :=
  btoa bytes

/-- utils.ts `base64StringToUint8Array`; `none` models the exception
propagated out of `atob`. -/
def base64StringToUint8Array (s : List Char) : Option (List Nat) :=
  atob s

/-- utils.ts `arrayBufferToBase64Url`: base64, then every `=` removed,
every `+` replaced by `-` and every slash by `_`. -/
def arrayBufferToBase64Url (bytes : List Nat) : List Char :=
  replaceChar '/' '_' (replaceChar '+' '-'
    ((arrayBufferToBase64String bytes).filter (fun c => !(c == '='))))

/-- utils.ts `base64UrlToUint8Array`: every `-` replaced by `+`, every
`_` by a slash, whitespace removed, then `base64StringToUint8Array`. -/
def base64UrlToUint8Array (s : List Char) : Option (List Nat) :=
  base64StringToUint8Array (stripWs (replaceChar '_' '/' (replaceChar '-' '+' s)))

/-! ## UTF-8 (TextEncoder / TextDecoder) -/

/-- UTF-8 encoding of one Unicode scalar value (`TextEncoder` on one
character). -/
def utf8EncodeChar (c : Char) : List Nat :=
  if c.toNat < 128 then [c.toNat]
  else if c.toNat < 2048 then [192 + c.toNat / 64, 128 + c.toNat % 64]
  else if c.toNat < 65536 then
    [224 + c.toNat / 4096, 128 + c.toNat / 64 % 64, 128 + c.toNat % 64]
  else
    [240 + c.toNat / 262144, 128 + c.toNat / 4096 % 64, 128 + c.toNat / 64 % 64,
      128 + c.toNat % 64]

/-- Model of `TextEncoder().encode`. -/
def utf8Encode (s : List Char) : List Nat :=
  (s.map utf8EncodeChar).flatten

/-- The Unicode replacement character U+FFFD. -/
def repl : Char := Char.ofNat 0xFFFD

/-- Is `b` a UTF-8 continuation byte? -/
def isCont (b : Nat) : Bool := 128 ≤ b ∧ b < 192

/-- Model of `TextDecoder("utf-8").decode` (non-fatal): well-formed
sequences decode to their scalar value; on a malformed sequence one byte
is consumed and U+FFFD emitted (the exact resynchronisation on malformed
input is irrelevant to the claims, which only decode well-formed data).
The definition matches on the list shape first — one flat pattern per
available lookahead — purely so that Lean generates usable equations;
the branch logic is the same decoder in every shape. -/
def utf8Decode : List Nat → List Char
  | [] => []
  | [b] => if b < 128 then [Char.ofNat b] else [repl]
  | [b, b1] =>
    if b < 128 then Char.ofNat b :: utf8Decode [b1]
    else if b < 194 then repl :: utf8Decode [b1]
    else if b < 224 then
      (if isCont b1 then [Char.ofNat ((b - 192) * 64 + (b1 - 128))]
       else repl :: utf8Decode [b1])
    else repl :: utf8Decode [b1]
  | [b, b1, b2] =>
    if b < 128 then Char.ofNat b :: utf8Decode [b1, b2]
    else if b < 194 then repl :: utf8Decode [b1, b2]
    else if b < 224 then
      (if isCont b1 then Char.ofNat ((b - 192) * 64 + (b1 - 128)) :: utf8Decode [b2]
       else repl :: utf8Decode [b1, b2])
    else if b < 240 then
      (if isCont b1 ∧ isCont b2 ∧ (¬ (b = 224 ∧ b1 < 160)) ∧ (¬ (b = 237 ∧ 160 ≤ b1)) then
        [Char.ofNat ((b - 224) * 4096 + (b1 - 128) * 64 + (b2 - 128))]
       else repl :: utf8Decode [b1, b2])
    else repl :: utf8Decode [b1, b2]
  | b :: b1 :: b2 :: b3 :: rest =>
    if b < 128 then Char.ofNat b :: utf8Decode (b1 :: b2 :: b3 :: rest)
    else if b < 194 then repl :: utf8Decode (b1 :: b2 :: b3 :: rest)
    else if b < 224 then
      (if isCont b1 then
        Char.ofNat ((b - 192) * 64 + (b1 - 128)) :: utf8Decode (b2 :: b3 :: rest)
       else repl :: utf8Decode (b1 :: b2 :: b3 :: rest))
    else if b < 240 then
      (if isCont b1 ∧ isCont b2 ∧ (¬ (b = 224 ∧ b1 < 160)) ∧ (¬ (b = 237 ∧ 160 ≤ b1)) then
        Char.ofNat ((b - 224) * 4096 + (b1 - 128) * 64 + (b2 - 128)) ::
          utf8Decode (b3 :: rest)
       else repl :: utf8Decode (b1 :: b2 :: b3 :: rest))
    else if b < 245 then
      (if isCont b1 ∧ isCont b2 ∧ isCont b3 ∧
          (¬ (b = 240 ∧ b1 < 144)) ∧ (¬ (b = 244 ∧ 144 ≤ b1)) then
        Char.ofNat ((b - 240) * 262144 + (b1 - 128) * 4096 +
          (b2 - 128) * 64 + (b3 - 128)) :: utf8Decode rest
       else repl :: utf8Decode (b1 :: b2 :: b3 :: rest))
    else repl :: utf8Decode (b1 :: b2 :: b3 :: rest)

/-- utils.ts `textToBase64Url`: UTF-8 encode, then base64 with `=`
stripped and `+`, `/` replaced by `-`, `_`. -/
def textToBase64Url (s : List Char) : List Char :=
  replaceChar '/' '_' (replaceChar '+' '-'
    ((btoa (utf8Encode s)).filter (fun c => !(c == '='))))

/-! ## JSON values, `JSON.stringify` and `JSON.parse`

Objects keep their fields in insertion order and may syntactically repeat
a key (property lookup takes the last occurrence, as `JSON.parse` does);
numbers are integers (see the header note). -/

inductive JsonVal where
  | null : JsonVal
  | bool (b : Bool) : JsonVal
  | num (n : Int) : JsonVal
  | str (s : List Char) : JsonVal
  | arr (elems : List JsonVal) : JsonVal
  | obj (fields : List (List Char × JsonVal)) : JsonVal

mutual

/-- Structural equality test on JSON values. -/
def beqJ : JsonVal → JsonVal → Bool
  | .null, .null => true
  | .bool a, .bool b => a == b
  | .num a, .num b => a == b
  | .str a, .str b => a == b
  | .arr xs, .arr ys => beqJL xs ys
  | .obj xs, .obj ys => beqJF xs ys
  | _, _ => false

/-- Structural equality test on element lists. -/
def beqJL : List JsonVal → List JsonVal → Bool
  | [], [] => true
  | x :: xs, y :: ys => beqJ x y && beqJL xs ys
  | _, _ => false

/-- Structural equality test on field lists. -/
def beqJF : List (List Char × JsonVal) → List (List Char × JsonVal) → Bool
  | [], [] => true
  | (k1, v1) :: xs, (k2, v2) :: ys => k1 == k2 && beqJ v1 v2 && beqJF xs ys
  | _, _ => false

end

mutual

/-- `beqJ` decides equality of JSON values. -/
theorem beqJ_iff : ∀ a b : JsonVal, beqJ a b = true ↔ a = b
  | .null, .null => by simp [beqJ]
  | .bool _, .bool _ => by simp [beqJ]
  | .num _, .num _ => by simp [beqJ]
  | .str _, .str _ => by simp [beqJ]
  | .arr x, .arr y => by simp [beqJ, beqJL_iff x y]
  | .obj x, .obj y => by simp [beqJ, beqJF_iff x y]
  | .null, .bool _ | .null, .num _ | .null, .str _ | .null, .arr _ | .null, .obj _
  | .bool _, .null | .bool _, .num _ | .bool _, .str _ | .bool _, .arr _ | .bool _, .obj _
  | .num _, .null | .num _, .bool _ | .num _, .str _ | .num _, .arr _ | .num _, .obj _
  | .str _, .null | .str _, .bool _ | .str _, .num _ | .str _, .arr _ | .str _, .obj _
  | .arr _, .null | .arr _, .bool _ | .arr _, .num _ | .arr _, .str _ | .arr _, .obj _
  | .obj _, .null | .obj _, .bool _ | .obj _, .num _ | .obj _, .str _ | .obj _, .arr _ => by
    simp [beqJ]

/-- `beqJL` decides equality of element lists. -/
theorem beqJL_iff : ∀ xs ys : List JsonVal, beqJL xs ys = true ↔ xs = ys
  | [], [] => by simp [beqJL]
  | [], _ :: _ => by simp [beqJL]
  | _ :: _, [] => by simp [beqJL]
  | x :: xs, y :: ys => by
    simp [beqJL, beqJ_iff x y, beqJL_iff xs ys]

/-- `beqJF` decides equality of field lists. -/
theorem beqJF_iff : ∀ xs ys : List (List Char × JsonVal), beqJF xs ys = true ↔ xs = ys
  | [], [] => by simp [beqJF]
  | [], _ :: _ => by simp [beqJF]
  | _ :: _, [] => by simp [beqJF]
  | (k1, v1) :: xs, (k2, v2) :: ys => by
    simp [beqJF, beqJ_iff v1 v2, beqJF_iff xs ys, and_assoc]

end

instance : DecidableEq JsonVal := fun a b => decidable_of_iff _ (beqJ_iff a b)

/-- Lowercase hexadecimal digit. -/
def hexChar (n : Nat) : Char :=
  if n < 10 then Char.ofNat (48 + n) else Char.ofNat (97 + (n - 10))

/-- How `JSON.stringify` escapes a single character inside a string
literal: quote and backslash get a backslash; BS, TAB, LF, FF, CR get
their short escapes; other control characters a `\u00xx` escape; all
other characters stand for themselves. -/
def escapeChar (c : Char) : List Char :=
  if c = dquote then [bslash, dquote]
  else if c = bslash then [bslash, bslash]
  else if c.toNat = 8 then [bslash, 'b']
  else if c.toNat = 9 then [bslash, 't']
  else if c.toNat = 10 then [bslash, 'n']
  else if c.toNat = 12 then [bslash, 'f']
  else if c.toNat = 13 then [bslash, 'r']
  else if c.toNat < 32 then
    [bslash, 'u', '0', '0', hexChar (c.toNat / 16), hexChar (c.toNat % 16)]
  else [c]

/-- Escape a whole string body. -/
def escapeList (s : List Char) : List Char :=
  (s.map escapeChar).flatten

/-- Decimal digits, fuel-bounded so that the recursion is structural
(and therefore reduces inside the kernel); `natDigits` supplies enough
fuel for any argument. -/
def natDigitsAux : Nat → Nat → List Nat
  | 0, n => [n]
  | fuel + 1, n => if n < 10 then [n] else natDigitsAux fuel (n / 10) ++ [n % 10]

/-- Decimal digits of a natural number, most significant first. -/
def natDigits (n : Nat) : List Nat := natDigitsAux n n

/-- The fuel argument is irrelevant once it dominates the value. -/
theorem natDigitsAux_congr : ∀ fuel1 fuel2 n, n ≤ fuel1 → n ≤ fuel2 →
    natDigitsAux fuel1 n = natDigitsAux fuel2 n := by
  intro fuel1
  induction fuel1 with
  | zero =>
    intro fuel2 n h1 _
    interval_cases n
    cases fuel2 <;> simp [natDigitsAux]
  | succ f1 ih =>
    intro fuel2 n h1 h2
    by_cases hn : n < 10
    · cases fuel2 <;> simp [natDigitsAux, hn]
    · have h10 : 10 ≤ n := by omega
      obtain ⟨f2, rfl⟩ : ∃ f2, fuel2 = f2 + 1 := ⟨fuel2 - 1, by omega⟩
      simp only [natDigitsAux, if_neg hn]
      rw [ih f2 (n / 10) (by omega) (by omega)]

/-- Unfolding rule: a number of two or more digits. -/
theorem natDigits_ge10 (n : Nat) (h : 10 ≤ n) :
    natDigits n = natDigits (n / 10) ++ [n % 10] := by
  obtain ⟨m, rfl⟩ : ∃ m, n = m + 1 := ⟨n - 1, by omega⟩
  show natDigitsAux (m + 1) (m + 1) = _
  rw [show natDigitsAux (m + 1) (m + 1) =
      natDigitsAux m ((m + 1) / 10) ++ [(m + 1) % 10] by
    simp [natDigitsAux, Nat.not_lt.mpr h]]
  rw [natDigitsAux_congr m ((m + 1) / 10) ((m + 1) / 10) (by omega) le_rfl]
  rfl

/-- Unfolding rule: a single digit. -/
theorem natDigits_lt10 (n : Nat) (h : n < 10) : natDigits n = [n] := by
  cases n with
  | zero => rfl
  | succ m => simp [natDigits, natDigitsAux, h]

/-- Decimal character string of a natural number. -/
def natChars (n : Nat) : List Char :=
  (natDigits n).map (fun d => Char.ofNat (48 + d))

/-- Decimal character string of an integer, as `JSON.stringify` prints an
integral JS number. -/
def intChars : Int → List Char
  | .ofNat n => natChars n
  | .negSucc m => '-' :: natChars (m + 1)

mutual

/-- Model of `JSON.stringify` (no space argument): canonical compact
serialisation. -/
def stringifyVal : JsonVal → List Char
  | .null => cs "null"
  | .bool true => cs "true"
  | .bool false => cs "false"
  | .num n => intChars n
  | .str s => dquote :: escapeList s ++ [dquote]
  | .arr elems => '[' :: stringifyElems elems ++ [']']
  | .obj fields => lbrace :: stringifyFields fields ++ [rbrace]

/-- Comma-separated serialisation of array elements. -/
def stringifyElems : List JsonVal → List Char
  | [] => []
  | [v] => stringifyVal v
  | v :: rest => stringifyVal v ++ ',' :: stringifyElems rest

/-- Comma-separated serialisation of object fields. -/
def stringifyFields : List (List Char × JsonVal) → List Char
  | [] => []
  | [(k, v)] => dquote :: escapeList k ++ dquote :: ':' :: stringifyVal v
  | (k, v) :: rest =>
      dquote :: escapeList k ++ dquote :: ':' :: stringifyVal v ++
        ',' :: stringifyFields rest

end

/-- JSON insignificant whitespace. -/
def isJsonWs (c : Char) : Bool :=
  c.toNat = 32 ∨ c.toNat = 9 ∨ c.toNat = 10 ∨ c.toNat = 13

/-- Skip insignificant whitespace. -/
def skipWs (s : List Char) : List Char :=
  s.dropWhile isJsonWs

/-- Is `c` a decimal digit? -/
def isDigitCh (c : Char) : Bool := 48 ≤ c.toNat ∧ c.toNat ≤ 57

/-- Value of a hexadecimal digit (either case). -/
def hexVal (c : Char) : Option Nat :=
  let n := c.toNat
  if 48 ≤ n ∧ n ≤ 57 then some (n - 48)
  else if 97 ≤ n ∧ n ≤ 102 then some (n - 97 + 10)
  else if 65 ≤ n ∧ n ≤ 70 then some (n - 65 + 10)
  else none

/-- Accumulate decimal digits; returns the value and the rest of the
input. -/
def parseDigitsAcc (acc : Nat) : List Char → Nat × List Char
  | [] => (acc, [])
  | c :: r =>
    if isDigitCh c then parseDigitsAcc (acc * 10 + (c.toNat - 48)) r
    else (acc, c :: r)

/-- Combined value of four hexadecimal digits. -/
def hexVal4 (a b c d : Char) : Option Nat :=
  match hexVal a, hexVal b, hexVal c, hexVal d with
  | some va, some vb, some vc, some vd => some (va * 4096 + vb * 256 + vc * 16 + vd)
  | _, _, _, _ => none

/-- Decode one escape sequence after a backslash inside a JSON string
literal; `rec` continues the scan of the string body after the escape.
A `\u` escape must denote a Unicode scalar value (JS strings admit lone
surrogates and surrogate pairs written as two `\u` escapes, which
`List Char` cannot represent; `JSON.stringify` never emits them and no
claim exercises them). -/
def psbEsc (rec : List Char → Option (List Char × List Char)) (e : Char)
    (r2 : List Char) : Option (List Char × List Char) :=
  if e = dquote then (rec r2).map (fun p => (dquote :: p.1, p.2))
  else if e = bslash then (rec r2).map (fun p => (bslash :: p.1, p.2))
  else if e = '/' then (rec r2).map (fun p => ('/' :: p.1, p.2))
  else if e = 'b' then (rec r2).map (fun p => (Char.ofNat 8 :: p.1, p.2))
  else if e = 'f' then (rec r2).map (fun p => (Char.ofNat 12 :: p.1, p.2))
  else if e = 'n' then (rec r2).map (fun p => (Char.ofNat 10 :: p.1, p.2))
  else if e = 'r' then (rec r2).map (fun p => (Char.ofNat 13 :: p.1, p.2))
  else if e = 't' then (rec r2).map (fun p => (Char.ofNat 9 :: p.1, p.2))
  else if e = 'u' then
    match r2 with
    | x1 :: x2 :: x3 :: x4 :: r3 =>
      match hexVal4 x1 x2 x3 x4 with
      | some code =>
        if code < 0xD800 ∨ 0xE000 ≤ code then
          (rec r3).map (fun p => (Char.ofNat code :: p.1, p.2))
        else none
      | none => none
    | _ => none
  else none

/-- Fuel-bounded scan of a JSON string-literal body; every step consumes
at least one character, so fuel equal to the input length suffices. -/
def psbAux : Nat → List Char → Option (List Char × List Char)
  | 0, _ => none
  | fuel + 1, s =>
    match s with
    | [] => none
    | c :: r =>
      if c = dquote then some ([], r)
      else if c = bslash then
        match r with
        | [] => none
        | e :: r2 => psbEsc (psbAux fuel) e r2
      else if c.toNat < 32 then none
      else (psbAux fuel r).map (fun p => (c :: p.1, p.2))

/-- Parse the body of a JSON string literal after the opening quote,
up to and beyond the closing quote. -/
def parseStringBody (s : List Char) : Option (List Char × List Char) :=
  psbAux s.length s

/-- Does the input start with a decimal digit? -/
def headIsDigit : List Char → Bool
  | d :: _ => isDigitCh d
  | [] => false

/-- Parse a JSON number (integral forms only, no leading zeros; see the
header note on the number model). -/
def parseNumber : List Char → Option (Int × List Char)
  | [] => none
  | c :: r =>
    if c = '-' then
      match r with
      | d :: r2 =>
        if isDigitCh d then
          if d = '0' ∧ headIsDigit r2 then none
          else
            let (n, rest) := parseDigitsAcc (d.toNat - 48) r2
            some (-(n : Int), rest)
        else none
      | [] => none
    else if isDigitCh c then
      if c = '0' ∧ headIsDigit r then none
      else
        let (n, rest) := parseDigitsAcc (c.toNat - 48) r
        some ((n : Int), rest)
    else none

mutual

/-- Parse one JSON value from the input (leading whitespace allowed),
returning it with the unconsumed rest.  `fuel` bounds the recursion
depth; `parseJson` supplies more fuel than any input can use. -/
def parseVal : Nat → List Char → Option (JsonVal × List Char)
  | 0, _ => none
  | fuel + 1, s =>
    match skipWs s with
    | [] => none
    | c :: r =>
      if c = 'n' then
        match r with
        | 'u' :: 'l' :: 'l' :: r2 => some (.null, r2)
        | _ => none
      else if c = 't' then
        match r with
        | 'r' :: 'u' :: 'e' :: r2 => some (.bool true, r2)
        | _ => none
      else if c = 'f' then
        match r with
        | 'a' :: 'l' :: 's' :: 'e' :: r2 => some (.bool false, r2)
        | _ => none
      else if c = dquote then
        (parseStringBody r).map (fun p => (.str p.1, p.2))
      else if c = '[' then
        match skipWs r with
        | ']' :: r2 => some (.arr [], r2)
        | _ => (parseElems fuel r).map (fun p => (.arr p.1, p.2))
      else if c = lbrace then
        match skipWs r with
        | c2 :: r2 =>
          if c2 = rbrace then some (.obj [], r2)
          else (parseFields fuel (c :: r)).map (fun p => (.obj p.1, p.2))
        | [] => none
      else
        (parseNumber (c :: r)).map (fun p => (.num p.1, p.2))

/-- Parse the comma-separated element list of a non-empty array, through
the closing bracket. -/
def parseElems : Nat → List Char → Option (List JsonVal × List Char)
  | 0, _ => none
  | fuel + 1, s => do
    let (v, r) ← parseVal fuel s
    match skipWs r with
    | ',' :: r2 => (parseElems fuel r2).map (fun p => (v :: p.1, p.2))
    | ']' :: r2 => some ([v], r2)
    | _ => none

/-- Parse the comma-separated field list of a non-empty object: the
argument starts at the opening brace or at a comma position; fields are
`"key" : value`. -/
def parseFields : Nat → List Char → Option (List (List Char × JsonVal) × List Char)
  | 0, _ => none
  | fuel + 1, s =>
    match s with
    | [] => none
    | _ :: r =>
      match skipWs r with
      | c :: r2 =>
        if c = dquote then do
          let (k, r3) ← parseStringBody r2
          match skipWs r3 with
          | ':' :: r4 => do
            let (v, r5) ← parseVal fuel r4
            match skipWs r5 with
            | ',' :: r6 =>
              (parseFields fuel (',' :: r6)).map (fun p => ((k, v) :: p.1, p.2))
            | c2 :: r6 =>
              if c2 = rbrace then some ([(k, v)], r6) else none
            | [] => none
          | _ => none
        else none
      | [] => none

end

/-- Model of `JSON.parse`: the whole input must be one JSON value
surrounded only by whitespace. -/
def parseJson (s : List Char) : Option JsonVal :=
  match parseVal (s.length + 1) s with
  | some (v, rest) => if skipWs rest = [] then some v else none
  | none => none

mutual

/-- Node count of a JSON value, a lower bound for the parser fuel. -/
def sizeJ : JsonVal → Nat
  | .null => 1
  | .bool _ => 1
  | .num _ => 1
  | .str _ => 1
  | .arr vs => sizeJL vs + 1
  | .obj fs => sizeJF fs + 1

/-- Node count of an array element list. -/
def sizeJL : List JsonVal → Nat
  | [] => 0
  | v :: vs => max (sizeJ v) (sizeJL vs) + 1

/-- Node count of an object field list. -/
def sizeJF : List (List Char × JsonVal) → Nat
  | [] => 0
  | (_, v) :: fs => max (sizeJ v) (sizeJF fs) + 1

end

/-! ## JS object semantics helpers -/

/-- Property lookup in a field list; the last occurrence of a repeated
key wins, as in a JS object built by `JSON.parse`. -/
def lookupLast (fields : List (List Char × JsonVal)) (k : List Char) : Option JsonVal :=
  match fields with
  | [] => none
  | (k2, v) :: rest =>
    match lookupLast rest k with
    | some r => some r
    | none => if k2 = k then some v else none

/-- Property access `v.k`: only objects carry the modelled properties;
on any other value the access yields `undefined` (`none`). -/
def getProp : JsonVal → List Char → Option JsonVal
  | .obj fs, k => lookupLast fs k
  | _, _ => none

/-- JS truthiness of a JSON value. -/
def jsTruthy : JsonVal → Bool
  | .null => false
  | .bool b => b
  | .num n => n ≠ 0
  | .str s => s ≠ []
  | .arr _ => true
  | .obj _ => true

/-- JS truthiness of a possibly-undefined value. -/
def jsTruthyOpt : Option JsonVal → Bool
  | none => false
  | some v => jsTruthy v

/-- Property write `o.k = v` on a field list: replaces the value in
place if the key is present, else appends (JS object insertion order). -/
def setField : List (List Char × JsonVal) → List Char → JsonVal → List (List Char × JsonVal)
  | [], k, v => [(k, v)]
  | (k2, v2) :: rest, k, v =>
    if k2 = k then (k, v) :: rest else (k2, v2) :: setField rest k v

/-- Property write on a JSON value.  Writes on non-objects (e.g. an
array payload) are invisible to `JSON.stringify` and unexercised by the
claims, so they leave the value unchanged. -/
def jsonSetProp : JsonVal → List Char → JsonVal → JsonVal
  | .obj fs, k, v => .obj (setField fs k v)
  | other, _, _ => other

/-- Model of `String.prototype.split` with a one-character separator
(no limit): always returns at least one piece. -/
def splitOn (sep : Char) : List Char → List (List Char)
  | [] => [[]]
  | c :: r =>
    if c = sep then [] :: splitOn sep r
    else
      match splitOn sep r with
      | h :: t => (c :: h) :: t
      | [] => [[c]]

/-! ## The JWT library (src/index.ts) -/

/-- One entry of the `algorithms` table: the parameters handed to
WebCrypto. -/
structure AlgParams where
  name : List Char
  namedCurve : Option (List Char) := none
  hash : Option (List Char) := none

/-- The `algorithms` table of index.ts; `none` models an absent entry
(`algorithms[options.algorithm]` undefined). -/
def algorithms (id : List Char) : Option AlgParams :=
  if id = cs "none" then some { name := cs "none" }
  else if id = cs "ES256" then
    some { name := cs "ECDSA", namedCurve := some (cs "P-256"), hash := some (cs "SHA-256") }
  else if id = cs "ES384" then
    some { name := cs "ECDSA", namedCurve := some (cs "P-384"), hash := some (cs "SHA-384") }
  else if id = cs "ES512" then
    some { name := cs "ECDSA", namedCurve := some (cs "P-521"), hash := some (cs "SHA-512") }
  else if id = cs "HS256" then some { name := cs "HMAC", hash := some (cs "SHA-256") }
  else if id = cs "HS384" then some { name := cs "HMAC", hash := some (cs "SHA-384") }
  else if id = cs "HS512" then some { name := cs "HMAC", hash := some (cs "SHA-512") }
  else if id = cs "RS256" then
    some { name := cs "RSASSA-PKCS1-v1_5", hash := some (cs "SHA-256") }
  else if id = cs "RS384" then
    some { name := cs "RSASSA-PKCS1-v1_5", hash := some (cs "SHA-384") }
  else if id = cs "RS512" then
    some { name := cs "RSASSA-PKCS1-v1_5", hash := some (cs "SHA-512") }
  else none

/-- A thrown JS exception, as far as the claims distinguish them. -/
inductive JsErr where
  | error (msg : List Char) : JsErr
  | typeError : JsErr
  | domError : JsErr
deriving DecidableEq

/-- The `secret` argument, by JS shape: what `typeof`, truthiness and
`instanceof CryptoKey` observe.  `other` stands for the remaining
primitives (number, boolean, symbol). -/
inductive SecretInput where
  | str (s : List Char) : SecretInput
  | jwk : SecretInput
  | nullv : SecretInput
  | cryptoKey : SecretInput
  | undef : SecretInput
  | other : SecretInput

/-- Is `typeof secret` the string `"string"` or `"object"`? -/
def secretTypeofOk : SecretInput → Bool
  | .str _ => true
  | .jwk => true
  | .nullv => true
  | .cryptoKey => true
  | _ => false

/-- JS truthiness of the secret. -/
def secretTruthy : SecretInput → Bool
  | .str s => s ≠ []
  | .jwk => true
  | .nullv => false
  | .cryptoKey => true
  | .undef => false
  | .other => true

/-- utils.ts `decodePayload`: `atob`, byte extraction, UTF-8 decode and
`JSON.parse` inside a try-catch; `none` is the caught-and-swallowed
`undefined` result. -/
def decodePayload (raw : List Char) : Option JsonVal :=
  match atob raw with
  | none => none
  | some bytes => parseJson (utf8Decode bytes)

/-- The structure returned by `decode`: either segment may have failed
to parse (`undefined`). -/
structure JwtDataM where
  header : Option JsonVal
  payload : Option JsonVal

/-- The segment fix-up `decode` applies before `decodePayload`: `-` to
`+` and `_` to the slash. -/
def b64SegFix (s : List Char) : List Char :=
  replaceChar '_' '/' (replaceChar '-' '+' s)

/-- index.ts `decode`.  `token.split(".")[1]` is `undefined` when the
token has no dot, and the `.replace` on it throws a TypeError; `none`
models that uncaught throw. -/
def decodeM (token : List Char) : Option JwtDataM :=
  match splitOn '.' token with
  | p0 :: p1 :: _ =>
      some { header := decodePayload (b64SegFix p0), payload := decodePayload (b64SegFix p1) }
  | _ => none

/-- Caller-facing options of `sign` after the string-to-object
normalisation; `none` fields model absent keys (the defaults
`algorithm: "HS256"` and `header: { typ: "JWT" }` are applied by
`signModel`, mirroring the spread expression of index.ts). -/
structure JwtSignOptionsM where
  algorithm : Option (List Char) := none
  header : Option (List (List Char × JsonVal)) := none

/-- Result of `sign`: a thrown exception, or the token together with the
state of the caller's payload object after the call (index.ts writes
`payload.iat` into the caller's object; the model passes that state
explicitly). -/
inductive SignResult where
  | raised (e : JsErr) : SignResult
  | ok (token : List Char) (payloadAfter : JsonVal) : SignResult

/-- index.ts `sign`.  `sig` is the external
`crypto.subtle.sign(algorithm, key, message)` (its key argument is
determined by `secret` and plays no part in the claims); `now` is
`Math.floor(Date.now() / 1000)`. -/
def signModel (sig : List Nat → List Nat) (now : Int) (payload : Option JsonVal)
    (secret : SecretInput) (opts : JwtSignOptionsM) : SignResult :=
  let algorithmId := opts.algorithm.getD (cs "HS256")
  let headerFields := opts.header.getD [(cs "typ", .str (cs "JWT"))]
  let payloadObjLike :=
    match payload with
    | some (.obj _) => true
    | some (.arr _) => true
    | _ => false
  if payloadObjLike = false then .raised (.error (cs "payload must be an object"))
  else
    let p := payload.getD .null
    if algorithmId ≠ cs "none" ∧ (¬ secretTruthy secret ∨ ¬ secretTypeofOk secret) then
      .raised (.error (cs "secret must be a string, a JWK object or a CryptoKey object"))
    else
      match algorithms algorithmId with
      | none => .raised (.error (cs "algorithm not found"))
      | some _algorithm =>
        let p2 :=
          if jsTruthyOpt (getProp p (cs "iat")) then p
          else jsonSetProp p (cs "iat") (.num now)
        let headerJson := JsonVal.obj (setField headerFields (cs "alg") (.str algorithmId))
        let partialToken :=
          textToBase64Url (stringifyVal headerJson) ++ '.' ::
            textToBase64Url (stringifyVal p2)
        if algorithmId = cs "none" then .ok partialToken p2
        else
          let signature := sig (textToUint8Array partialToken)
          .ok (partialToken ++ '.' :: arrayBufferToBase64Url signature) p2

/-- Caller-facing options of `verify`; `none` fields model absent
keys. -/
structure JwtVerifyOptionsM where
  algorithm : Option (List Char) := none
  clockTolerance : Option Int := none
  throwErr : Option Bool := none

/-- The options after the defaulting spread of index.ts:
`{ algorithm: "HS256", clockTolerance: 0, throwError: false, ...options }`. -/
structure ResolvedVerifyOpts where
  algorithm : List Char
  clockTolerance : Int
  throwErr : Bool

/-- Apply the verify option defaults.  The source field is named
`throwError`; that identifier is a reserved token in this Lean
environment, so the model shortens it to `throwErr`. -/
def resolveVerifyOpts (o : JwtVerifyOptionsM) : ResolvedVerifyOpts :=
  { algorithm := o.algorithm.getD (cs "HS256"),
    clockTolerance := o.clockTolerance.getD 0,
    throwErr := o.throwErr.getD false }

/-- Result of `verify`: a thrown exception (contract violations, or any
caught failure re-thrown under `throwError`), the decoded token, or the
swallowed `undefined` return. -/
inductive VerifyResult where
  | raised (e : JsErr) : VerifyResult
  | ok (d : JwtDataM) : VerifyResult
  | noResult : VerifyResult

/-- The header check `decodedToken.header?.alg !== options.algorithm`:
strict equality holds only for a string-valued `alg` with the same
characters. -/
def headerAlgMatches (d : JwtDataM) (alg : List Char) : Bool :=
  match d.header with
  | some h =>
    match getProp h (cs "alg") with
    | some (.str a) => a = alg
    | _ => false
  | none => false

/-- Whitespace accepted around a numeric string by the JS `ToNumber`
coercion (ECMAScript StrWhiteSpaceChar: WhiteSpace and LineTerminator
code points). -/
def isJsWs (c : Char) : Bool :=
  c.toNat = 9 ∨ c.toNat = 10 ∨ c.toNat = 11 ∨ c.toNat = 12 ∨ c.toNat = 13 ∨
  c.toNat = 32 ∨ c.toNat = 160 ∨ c.toNat = 0x1680 ∨
  (0x2000 ≤ c.toNat ∧ c.toNat ≤ 0x200A) ∨ c.toNat = 0x2028 ∨ c.toNat = 0x2029 ∨
  c.toNat = 0x202F ∨ c.toNat = 0x205F ∨ c.toNat = 0x3000 ∨ c.toNat = 0xFEFF

/-- Strip leading and trailing JS whitespace. -/
def trimJs (s : List Char) : List Char :=
  ((s.dropWhile isJsWs).reverse.dropWhile isJsWs).reverse

/-- The result of the JS `ToNumber` coercion: NaN, an infinity, or the
exact value `m * 10 ^ e` of a finite decimal (every JS numeric string
literal denotes such a value).  The model computes with these exact
values; the rounding of the value to an IEEE-754 double — which can
change a comparison only for literals of more than about 17 significant
digits — and the overflow of astronomically large literals to Infinity
are outside the model. -/
inductive JsNum where
  | nan : JsNum
  | inf : JsNum
  | ninf : JsNum
  | val (m : Int) (e : Int) : JsNum
  deriving DecidableEq

/-- The JS comparison `x > b` with `b` an integer: false on NaN, by
value elsewhere. -/
def jsGtNum : JsNum → Int → Bool
  | .nan, _ => false
  | .inf, _ => true
  | .ninf, _ => false
  | .val m e, b => if 0 ≤ e then b < m * 10 ^ e.toNat else b * 10 ^ (-e).toNat < m

/-- The JS comparison `x <= b` with `b` an integer: false on NaN, by
value elsewhere. -/
def jsLeNum : JsNum → Int → Bool
  | .nan, _ => false
  | .inf, _ => false
  | .ninf, _ => true
  | .val m e, b => if 0 ≤ e then m * 10 ^ e.toNat ≤ b else m ≤ b * 10 ^ (-e).toNat

/-- The JS comparison `x < b` with `b` an integer: false on NaN, by
value elsewhere. -/
def jsLtNum : JsNum → Int → Bool
  | .nan, _ => false
  | .inf, _ => false
  | .ninf, _ => true
  | .val m e, b => if 0 ≤ e then m * 10 ^ e.toNat < b else m < b * 10 ^ (-e).toNat

/-- Value of a decimal digit string. -/
def digitsToNat (ds : List Char) : Nat :=
  ds.foldl (fun a c => a * 10 + (c.toNat - 48)) 0

/-- Mantissa and exponent of an unsigned decimal literal whose integer
digits, fraction digits and remaining input (which may only be an
ExponentPart) are given. -/
def parseExpPart (intDs fracDs rem : List Char) : JsNum :=
  let m : Int := ((digitsToNat intDs * 10 ^ fracDs.length + digitsToNat fracDs : Nat) : Int)
  match rem with
  | [] => .val m (-(fracDs.length : Int))
  | e :: r4 =>
    if e = 'e' ∨ e = 'E' then
      let sr : Int × List Char :=
        match r4 with
        | '+' :: r5 => (1, r5)
        | '-' :: r5 => (-1, r5)
        | _ => (1, r4)
      if sr.2 ≠ [] ∧ sr.2.all isDigitCh then
        .val m (sr.1 * ((digitsToNat sr.2 : Nat) : Int) - (fracDs.length : Int))
      else .nan
    else .nan

/-- An unsigned StrUnsignedDecimalLiteral other than `Infinity`:
`DecimalDigits [. DecimalDigits] [ExponentPart]` or
`. DecimalDigits [ExponentPart]`; anything else is NaN. -/
def parseDecLit (t : List Char) : JsNum :=
  let intDs := t.takeWhile isDigitCh
  match t.dropWhile isDigitCh with
  | '.' :: r2 =>
    let fracDs := r2.takeWhile isDigitCh
    if intDs = [] ∧ fracDs = [] then .nan
    else parseExpPart intDs fracDs (r2.dropWhile isDigitCh)
  | r1 =>
    if intDs = [] then .nan
    else parseExpPart intDs [] r1

/-- An unsigned literal after an optional sign: `Infinity` or a decimal
literal, with the sign applied. -/
def parseUnsigned (t : List Char) (sgn : Int) : JsNum :=
  if t = cs "Infinity" then (if sgn = 1 then .inf else .ninf)
  else
    match parseDecLit t with
    | .val m e => .val (sgn * m) e
    | x => x

/-- Value of a digit string in a radix, given the per-character digit
value; NaN when empty or on any non-digit. -/
def radixToNum (f : Char → Option Nat) (radix : Nat) (t : List Char) : JsNum :=
  if t = [] then .nan
  else
    match mapMOpt f t with
    | some ds => .val ((ds.foldl (fun a d => a * radix + d) 0 : Nat) : Int) 0
    | none => .nan

/-- Value of an octal digit. -/
def octVal (c : Char) : Option Nat :=
  if 48 ≤ c.toNat ∧ c.toNat ≤ 55 then some (c.toNat - 48) else none

/-- Value of a binary digit. -/
def binVal (c : Char) : Option Nat :=
  if c.toNat = 48 then some 0 else if c.toNat = 49 then some 1 else none

/-- The JS `ToNumber` of a string (`StringNumericLiteral`): surrounding
whitespace trimmed, empty is 0, an optionally signed decimal literal or
`Infinity`, or an unsigned `0x`/`0o`/`0b` integer; anything else is
NaN. -/
def strToNum (s : List Char) : JsNum :=
  match trimJs s with
  | [] => .val 0 0
  | '+' :: t => parseUnsigned t 1
  | '-' :: t => parseUnsigned t (-1)
  | '0' :: x :: t =>
    if x = 'x' ∨ x = 'X' then radixToNum hexVal 16 t
    else if x = 'o' ∨ x = 'O' then radixToNum octVal 8 t
    else if x = 'b' ∨ x = 'B' then radixToNum binVal 2 t
    else parseUnsigned ('0' :: x :: t) 1
  | t => parseUnsigned t 1

mutual

/-- The JS `ToString` of an array element inside `Array.prototype.join`
(the `ToPrimitive` of an array): `null` (and `undefined`) become the
empty string, numbers print in decimal, booleans as their keywords,
nested arrays join recursively, plain objects print as
`[object Object]`. -/
def jsToStringElem : JsonVal → List Char
  | .null => []
  | .bool true => cs "true"
  | .bool false => cs "false"
  | .num n => intChars n
  | .str s => s
  | .arr vs => joinElems vs
  | .obj _ => cs "[object Object]"

/-- `Array.prototype.join` with the default comma separator. -/
def joinElems : List JsonVal → List Char
  | [] => []
  | [v] => jsToStringElem v
  | v :: rest => jsToStringElem v ++ ',' :: joinElems rest

end

/-- The JS `ToNumber` of a JSON value: numbers are themselves, `null` is
0, booleans are 0 and 1, strings parse as numeric literals, arrays
coerce through their join string (`ToPrimitive`), and a plain object
coerces through `[object Object]`, hence NaN. -/
def toNum : JsonVal → JsNum
  | .null => .val 0 0
  | .bool true => .val 1 0
  | .bool false => .val 0 0
  | .num n => .val n 0
  | .str s => strToNum s
  | .arr vs => strToNum (joinElems vs)
  | .obj _ => strToNum (cs "[object Object]")

/-- The `nbf` rejection test of index.ts:
`payload.nbf && payload.nbf > now && (payload.nbf - now) > clockTolerance`.
The first conjunct is JS truthiness, so a zero (or otherwise falsy)
`nbf` short-circuits the test; the comparisons coerce the claim value
with `ToNumber` (`toNum`), and `x - now > tol` is compared in the
rearranged exact form `x > tol + now`. -/
def nbfCond (pl : JsonVal) (now tol : Int) : Bool :=
  match getProp pl (cs "nbf") with
  | some v => jsTruthy v && jsGtNum (toNum v) now && jsGtNum (toNum v) (tol + now)
  | none => false

/-- The `exp` rejection test of index.ts:
`payload.exp && payload.exp <= now && (now - payload.exp) > clockTolerance`;
same modelling notes as `nbfCond`, with `now - x > tol` compared in the
rearranged exact form `x < now - tol`. -/
def expCond (pl : JsonVal) (now tol : Int) : Bool :=
  match getProp pl (cs "exp") with
  | some v => jsTruthy v && jsLeNum (toNum v) now && jsLtNum (toNum v) (now - tol)
  | none => false

/-- The guard `if (decodedToken.payload)` around the temporal checks:
the checks only run when the payload parsed to a truthy value. -/
def payloadRejects (cond : JsonVal → Int → Int → Bool) (payload : Option JsonVal)
    (now tol : Int) : Bool :=
  match payload with
  | some pl => jsTruthy pl && cond pl now tol
  | none => false

/-- index.ts `verify`.  `verifOk` is the external
`crypto.subtle.verify(algorithm, key, signatureBytes, messageBytes)`
outcome as a function of signature and message bytes; `now` is
`Math.floor(Date.now() / 1000)`.  Key import is assumed to succeed (the
secret shapes that reach it cannot make the dispatch itself throw). -/
def verifyModel (verifOk : List Nat → List Nat → Bool) (now : Int) (token : List Char)
    (secret : SecretInput) (o : JwtVerifyOptionsM) : VerifyResult :=
  let opts := resolveVerifyOpts o
  if opts.algorithm ≠ cs "none" ∧ ¬ secretTypeofOk secret then
    .raised (.error (cs "secret must be a string, a JWK object or a CryptoKey object"))
  else
    match (splitOn '.' token).take 3 with
    | tokenHeader :: tokenPayload :: sigParts =>
      match algorithms opts.algorithm with
      | none => .raised (.error (cs "algorithm not found"))
      | some algorithm =>
        match decodeM token with
        | none => .raised .typeError
        | some decodedToken =>
          let inner : Except JsErr JwtDataM :=
            if headerAlgMatches decodedToken opts.algorithm = false then
              .error (.error (cs "INVALID_SIGNATURE"))
            else if payloadRejects nbfCond decodedToken.payload now opts.clockTolerance then
              .error (.error (cs "NOT_YET_VALID"))
            else if payloadRejects expCond decodedToken.payload now opts.clockTolerance then
              .error (.error (cs "EXPIRED"))
            else if algorithm.name = cs "none" then .ok decodedToken
            else
              match sigParts.head? with
              | none => .error .typeError
              | some tokenSignature =>
                match base64UrlToUint8Array tokenSignature with
                | none => .error .domError
                | some sigBytes =>
                  if verifOk sigBytes (textToUint8Array (tokenHeader ++ '.' :: tokenPayload)) then
                    .ok decodedToken
                  else .error (.error (cs "INVALID_SIGNATURE"))
          match inner with
          | .ok d => .ok d
          | .error e => if opts.throwErr then .raised e else .noResult
    | _ => .raised (.error (cs "token must consist of 2 or more parts"))

/-! ## Key import dispatch (src/utils.ts `importKey`) -/

/-- The `key` argument by JS shape. -/
inductive KeyInput where
  | obj (j : JsonVal) : KeyInput
  | str (s : List Char) : KeyInput
  | other : KeyInput

/-- Which underlying import `importKey` performs, with the material it
passes on; `unsupported` models the thrown "Unsupported key type!". -/
inductive ImportAction where
  | jwk (j : JsonVal) : ImportAction
  | spki (pem : List Char) : ImportAction
  | pkcs8 (pem : List Char) : ImportAction
  | x509spki (pem : List Char) : ImportAction
  | raw (secret : List Char) : ImportAction
  | unsupported : ImportAction

/-- Does `hay` start with `pat`? -/
def startsWith : List Char → List Char → Bool
  | _, [] => true
  | [], _ :: _ => false
  | c :: r, d :: q => c = d ∧ startsWith r q

/-- Model of `String.prototype.includes`. -/
def containsSub (hay pat : List Char) : Bool :=
  if startsWith hay pat then true
  else
    match hay with
    | [] => false
    | _ :: r => containsSub r pat

/-- utils.ts `importKey`: the dispatch over the key's shape, in source
order. -/
def importKeyM (key : KeyInput) : ImportAction :=
  match key with
  | .obj j => .jwk j
  | .other => .unsupported
  | .str s =>
    if containsSub s (cs "PUBLIC") then .spki s
    else if containsSub s (cs "PRIVATE") then .pkcs8 s
    else if containsSub s (cs "-----BEGIN CERTIFICATE-----") then .x509spki s
    else .raw s

/-! ## DER/BER element parsing (src/utils.ts `parseElement`) -/

/-- utils.ts `x509Element`. -/
structure X509Element where
  byteLength : Nat
  contents : List Nat
  raw : List Nat
deriving DecidableEq

/-- The `while (bytes[position] >= 0x80)` loop of the multi-byte tag
form (an out-of-range read is `undefined`, which fails the `>= 0x80`
test and ends the loop). -/
def parseTagLoop (bytes : List Nat) (position : Nat) (tag : Int) : Int × Nat :=
  if h : position < bytes.length then
    let b := bytes.get ⟨position, h⟩
    if 128 ≤ b then parseTagLoop bytes (position + 1) (tag * 128 + (b : Int) - 128)
    else (tag, position)
  else (tag, position)
termination_by bytes.length - position

/-- The double-zero-terminator scan of the indefinite-length branch:
`while (bytes[position+length] !== 0 || bytes[position+length+1] !== 0)`
with the in-loop guard `if (length > bytes.byteLength) throw`.  An
out-of-range read is `undefined`, which is `!== 0`.  `none` models the
thrown TypeError. -/
def scanIndef (bytes : List Nat) (position length : Nat) : Option Nat :=
  if bytes[position + length]? = some 0 ∧ bytes[position + length + 1]? = some 0 then
    some length
  else if bytes.length < length then none
  else scanIndef bytes position (length + 1)
termination_by bytes.length + 1 - length

/-- utils.ts `parseElement`.  Note on the length forms: the source
decides between them with `if (bytes[position] < 0x80) ... else if
(length === 0x80) ... else ...`, where the local `length` has just been
initialised to `0`; the middle (indefinite-form) test therefore compares
`0` to `0x80` and can never be taken.  The model keeps that comparison
verbatim, including the unreachable branch body.  The computed `tag` is
never used by the source after the loop, so the exact value modelled for
an out-of-range final tag byte (`undefined`, giving NaN) is immaterial;
`none` models a thrown TypeError. -/
def parseElement (bytes : List Nat) : Option X509Element :=
  let tag0 : Nat := bytes.headD 0 &&& 31
  let afterTag : Nat :=
    if tag0 = 31 then (parseTagLoop bytes 1 0).2 + 1
    else 1
  match bytes[afterTag]? with
  | some lb =>
    if lb < 128 then
      let length := lb
      let pos2 := afterTag + 1
      some { byteLength := pos2 + length,
             contents := (bytes.drop pos2).take length,
             raw := bytes.take (pos2 + length) }
    else if (0 : Nat) = 128 then
      match scanIndef bytes afterTag 0 with
      | none => none
      | some len =>
        some { byteLength := afterTag + len + 2,
               contents := (bytes.drop afterTag).take len,
               raw := bytes.take (afterTag + len + 2) }
    else
      let numberOfDigits := lb &&& 127
      let pos3 := afterTag + 1 + numberOfDigits
      let length := ((bytes.drop (afterTag + 1)).take numberOfDigits).foldl
        (fun acc b => acc * 256 + b) 0
      some { byteLength := pos3 + length,
             contents := (bytes.drop pos3).take length,
             raw := bytes.take (pos3 + length) }
  | none =>
    let pos2 := afterTag + 1
    some { byteLength := pos2, contents := [], raw := bytes.take pos2 }

deriving instance DecidableEq for JwtDataM
deriving instance DecidableEq for VerifyResult
deriving instance DecidableEq for SignResult
deriving instance DecidableEq for ImportAction

deriving instance DecidableEq for AlgParams

/-- A header segment declaring algorithm HS384 (no other fields),
followed by an empty-object payload segment: a well-formed unsigned
two-part token used as concrete input below. -/
def tokenAlg384 : List Char :=
  textToBase64Url (stringifyVal (.obj [(cs "alg", .str (cs "HS384"))])) ++
    '.' :: textToBase64Url (stringifyVal (.obj []))

/-- An HS256-headed token whose payload is the single claim `exp: 5`
(no signature segment needed by the temporal stage). -/
def tokenExp5 : List Char :=
  textToBase64Url (stringifyVal (.obj [(cs "alg", .str (cs "HS256"))])) ++
    '.' :: textToBase64Url (stringifyVal (.obj [(cs "exp", .num 5)]))

/-- An HS256-headed token whose payload is the single claim
`exp: "5"` with a string value (exercising the `ToNumber` coercion of
the temporal comparisons). -/
def tokenExpStr5 : List Char :=
  textToBase64Url (stringifyVal (.obj [(cs "alg", .str (cs "HS256"))])) ++
    '.' :: textToBase64Url (stringifyVal (.obj [(cs "exp", .str (cs "5"))]))

/-- An HS256-headed, three-part token whose payload is the single claim
`exp: 0`. -/
def tokenExp0 : List Char :=
  textToBase64Url (stringifyVal (.obj [(cs "alg", .str (cs "HS256"))])) ++
    '.' :: (textToBase64Url (stringifyVal (.obj [(cs "exp", .num 0)])) ++
      '.' :: arrayBufferToBase64Url [1, 2, 3])

/-- The concrete run for the C6 witness: signing a payload whose `iat`
is the nonzero number 42. -/
def c6run : SignResult :=
  signModel (fun _ => [7]) 1000 (some (.obj [(cs "iat", .num 42)])) (.str (cs "k")) {}

/-- Token component of `c6run`. -/
def c6tok : List Char :=
  match c6run with
  | .ok t _ => t
  | _ => []

/-- Post-call payload component of `c6run`. -/
def c6pA : JsonVal :=
  match c6run with
  | .ok _ p => p
  | _ => .null

/-- The concrete run for the C10 witness: signing a payload without
`iat`. -/
def c10run : SignResult :=
  signModel (fun _ => [7]) 7 (some (.obj [(cs "sub", .str (cs "me"))])) (.str (cs "k")) {}

/-- Token component of `c10run`. -/
def c10tok : List Char :=
  match c10run with
  | .ok t _ => t
  | _ => []

/-- Post-call payload component of `c10run`. -/
def c10pA : JsonVal :=
  match c10run with
  | .ok _ p => p
  | _ => .null

/-- The concrete run for the C3 witness: signing a payload without
`iat`. -/
def c3run : SignResult :=
  signModel (fun _ => [7]) 7 (some (.obj [(cs "sub", .str (cs "me"))])) (.str (cs "k")) {}

/-- Token component of `c3run`. -/
def c3tok : List Char :=
  match c3run with
  | .ok t _ => t
  | _ => []

/-- Post-call payload component of `c3run`. -/
def c3pA : JsonVal :=
  match c3run with
  | .ok _ p => p
  | _ => .null

/-- The concrete run for the C3 counterexample: signing a payload whose
`iat` is the falsy number 0. -/
def c3xrun : SignResult :=
  signModel (fun _ => [7]) 1000 (some (.obj [(cs "iat", .num 0)])) (.str (cs "k")) {}

/-- Token component of `c3xrun`. -/
def c3xtok : List Char :=
  match c3xrun with
  | .ok t _ => t
  | _ => []

/-! ## Reduction lemmas for `verify` -/

/-- On a token with at least one dot, `decode` returns the two decoded
segments. -/
theorem decodeM_of_split (token : List Char) (p0 p1 : List Char) (rest : List (List Char))
    (h : splitOn '.' token = p0 :: p1 :: rest) :
    decodeM token =
      some { header := decodePayload (b64SegFix p0), payload := decodePayload (b64SegFix p1) } := by
  simp [decodeM, h]

/-- Unfolding of `verifyModel` once the contract checks pass: the secret
has an accepted shape, the token has at least two segments and the
algorithm resolves. -/
theorem verifyModel_reached (vk : List Nat → List Nat → Bool) (now : Int)
    (token : List Char) (secret : SecretInput) (o : JwtVerifyOptionsM)
    (p0 p1 : List Char) (rest : List (List Char)) (a : AlgParams)
    (hsplit : splitOn '.' token = p0 :: p1 :: rest)
    (hsec : secretTypeofOk secret = true)
    (halg : algorithms (resolveVerifyOpts o).algorithm = some a) :
    verifyModel vk now token secret o =
      (let opts := resolveVerifyOpts o
       let d : JwtDataM :=
         { header := decodePayload (b64SegFix p0), payload := decodePayload (b64SegFix p1) }
       let inner : Except JsErr JwtDataM :=
         if headerAlgMatches d opts.algorithm = false then
           .error (.error (cs "INVALID_SIGNATURE"))
         else if payloadRejects nbfCond d.payload now opts.clockTolerance then
           .error (.error (cs "NOT_YET_VALID"))
         else if payloadRejects expCond d.payload now opts.clockTolerance then
           .error (.error (cs "EXPIRED"))
         else if a.name = cs "none" then .ok d
         else
           match (rest.take 1).head? with
           | none => .error .typeError
           | some tokenSignature =>
             match base64UrlToUint8Array tokenSignature with
             | none => .error .domError
             | some sigBytes =>
               if vk sigBytes (textToUint8Array (p0 ++ '.' :: p1)) then .ok d
               else .error (.error (cs "INVALID_SIGNATURE"))
       match inner with
       | .ok d2 => .ok d2
       | .error e => if opts.throwErr then .raised e else .noResult) := by
  have hd := decodeM_of_split token p0 p1 rest hsplit
  simp only [verifyModel, hsplit, hsec, List.take_succ_cons, hd, halg]
  simp

/-! ## Claim C1: algorithm mismatch handling -/

/-- C1 (amended): when the decoded header's `alg` does not strictly
equal the requested algorithm (default HS256), `verify` rejects the
token — but the failure raised under `throwError` carries the message
`INVALID_SIGNATURE`, the same label as a signature-check failure, not a
distinguishable `ALG_MISMATCH` error. -/
theorem c1_alg_mismatch_rejected (vk : List Nat → List Nat → Bool) (now : Int)
    (token : List Char) (secret : SecretInput) (o : JwtVerifyOptionsM)
    (p0 p1 : List Char) (rest : List (List Char)) (a : AlgParams)
    (hsplit : splitOn '.' token = p0 :: p1 :: rest)
    (hsec : secretTypeofOk secret = true)
    (halg : algorithms (resolveVerifyOpts o).algorithm = some a)
    (hmm : headerAlgMatches
      { header := decodePayload (b64SegFix p0), payload := decodePayload (b64SegFix p1) }
      (resolveVerifyOpts o).algorithm = false) :
    verifyModel vk now token secret o =
      if (resolveVerifyOpts o).throwErr then .raised (.error (cs "INVALID_SIGNATURE"))
      else .noResult := by
  rw [verifyModel_reached vk now token secret o p0 p1 rest a hsplit hsec halg]
  simp [hmm]

/-- Witness for C1: a token with undecodable segments never matches the
requested algorithm; with `throwError` unset the failure is swallowed. -/
theorem c1_alg_mismatch_rejected_witness :
    verifyModel (fun _ _ => false) 0 (cs "a.b") (.str (cs "k")) {} =
      if (resolveVerifyOpts {}).throwErr then .raised (.error (cs "INVALID_SIGNATURE"))
      else .noResult :=
  c1_alg_mismatch_rejected (fun _ _ => false) 0 (cs "a.b") (.str (cs "k")) {}
    (cs "a") (cs "b") [] { name := cs "HMAC", hash := some (cs "SHA-256") }
    (by decide) (by decide) (by decide) (by decide)

/-- Counterexample for C1 as stated: verifying an HS384-headed token
under the default HS256 expectation with `throwError` raises an error
whose message is `INVALID_SIGNATURE` — the very label of a signature
failure — so no distinguishable `ALG_MISMATCH` error exists. -/
theorem c1_counterexample :
    verifyModel (fun _ _ => true) 0 tokenAlg384 (.str (cs "k"))
        { throwErr := some true } =
      .raised (.error (cs "INVALID_SIGNATURE")) ∧
    cs "INVALID_SIGNATURE" ≠ cs "ALG_MISMATCH" := by
  constructor
  · decide
  · decide

/-! ## Claim C5: token segment structure -/

/-- The `nbf` rejection test in terms of the payload's field and its
`ToNumber` coercion. -/
theorem nbfCond_iff (pl : JsonVal) (now tol : Int) :
    nbfCond pl now tol = true ↔
      ∃ v, getProp pl (cs "nbf") = some v ∧ jsTruthy v = true ∧
        jsGtNum (toNum v) now = true ∧ jsGtNum (toNum v) (tol + now) = true := by
  unfold nbfCond
  cases h : getProp pl (cs "nbf") with
  | none => simp
  | some v => simp [Bool.and_eq_true, and_assoc]

/-- The `exp` rejection test in terms of the payload's field and its
`ToNumber` coercion. -/
theorem expCond_iff (pl : JsonVal) (now tol : Int) :
    expCond pl now tol = true ↔
      ∃ v, getProp pl (cs "exp") = some v ∧ jsTruthy v = true ∧
        jsLeNum (toNum v) now = true ∧ jsLtNum (toNum v) (now - tol) = true := by
  unfold expCond
  cases h : getProp pl (cs "exp") with
  | none => simp
  | some v => simp [Bool.and_eq_true, and_assoc]

/-- On a number-valued claim the `ToNumber` coercion is the identity, so
the coerced comparisons are the original claim's comparisons. -/
theorem coercion_on_numbers (n : Int) (now tol : Int) :
    jsTruthy (.num n) = (n ≠ 0 : Bool) ∧
    (jsGtNum (toNum (.num n)) now = true ↔ now < n) ∧
    (jsGtNum (toNum (.num n)) (tol + now) = true ↔ tol < n - now) ∧
    (jsLeNum (toNum (.num n)) now = true ↔ n ≤ now) ∧
    (jsLtNum (toNum (.num n)) (now - tol) = true ↔ tol < now - n) := by
  refine ⟨rfl, ?_, ?_, ?_, ?_⟩ <;>
    · simp only [toNum, jsGtNum, jsLeNum, jsLtNum, if_pos (le_refl (0 : Int)),
        Int.toNat_zero, pow_zero, mul_one]
      constructor
      · intro h
        simp only [decide_eq_true_eq] at h
        omega
      · intro h
        simp only [decide_eq_true_eq]
        omega

/-- The signature stage of `verify` can only end in acceptance, a
TypeError, a DOMException or the `INVALID_SIGNATURE` error — never in a
temporal error. -/
theorem sigStage_ne_temporal (vk : List Nat → List Nat → Bool) (m : List Nat) (d : JwtDataM)
    (hs : Option (List Char)) (throwB : Bool) (msgT : List Char)
    (hne : cs "INVALID_SIGNATURE" ≠ msgT) :
    (match (match hs with
        | none => Except.error JsErr.typeError
        | some ts =>
          match base64UrlToUint8Array ts with
          | none => Except.error JsErr.domError
          | some sigBytes =>
            if vk sigBytes m = true then Except.ok d
            else Except.error (JsErr.error (cs "INVALID_SIGNATURE"))) with
      | Except.ok d2 => VerifyResult.ok d2
      | Except.error e => if throwB then VerifyResult.raised e else VerifyResult.noResult) ≠
      VerifyResult.raised (JsErr.error msgT) := by
  rcases hs with _ | ts
  · cases throwB <;> simp
  · rcases h2 : base64UrlToUint8Array ts with _ | sb
    · cases throwB <;> simp [h2]
    · by_cases hv : vk sb m = true <;> cases throwB <;> simp [h2, hv, hne]

/-- C2 (amended): for a token whose payload decoded successfully and
whose earlier stages pass, `verify` under `throwError` raises
`NOT_YET_VALID` exactly when the payload has a truthy `nbf` claim whose
JS `ToNumber` coercion `x` (NaN fails every comparison) satisfies
`x > now` and `x - now > clockTolerance`, and raises `EXPIRED` exactly
when no such `nbf` rejection applies and the payload has a truthy `exp`
claim whose coercion `x` satisfies `x <= now` and
`now - x > clockTolerance`; `clockTolerance` defaults to 0.  On a
number-valued claim the coercion is the identity
(`coercion_on_numbers`), recovering the original claim's comparisons;
but a present claim whose value is 0 — falsy — is skipped by the
truthiness guard, contrary to the original claim. -/
theorem c2_temporal_characterization (vk : List Nat → List Nat → Bool) (now : Int)
    (token : List Char) (secret : SecretInput) (o : JwtVerifyOptionsM)
    (p0 p1 : List Char) (rest : List (List Char)) (a : AlgParams) (pl : JsonVal)
    (hsplit : splitOn '.' token = p0 :: p1 :: rest)
    (hsec : secretTypeofOk secret = true)
    (halg : algorithms (resolveVerifyOpts o).algorithm = some a)
    (hthrow : (resolveVerifyOpts o).throwErr = true)
    (hpl : decodePayload (b64SegFix p1) = some pl)
    (htru : jsTruthy pl = true)
    (hmatch : headerAlgMatches
      { header := decodePayload (b64SegFix p0), payload := decodePayload (b64SegFix p1) }
      (resolveVerifyOpts o).algorithm = true) :
    (verifyModel vk now token secret o = .raised (.error (cs "NOT_YET_VALID")) ↔
      ∃ v, getProp pl (cs "nbf") = some v ∧ jsTruthy v = true ∧
        jsGtNum (toNum v) now = true ∧
        jsGtNum (toNum v) ((resolveVerifyOpts o).clockTolerance + now) = true) ∧
    (verifyModel vk now token secret o = .raised (.error (cs "EXPIRED")) ↔
      ((¬ ∃ v, getProp pl (cs "nbf") = some v ∧ jsTruthy v = true ∧
          jsGtNum (toNum v) now = true ∧
          jsGtNum (toNum v) ((resolveVerifyOpts o).clockTolerance + now) = true) ∧
        ∃ v, getProp pl (cs "exp") = some v ∧ jsTruthy v = true ∧
          jsLeNum (toNum v) now = true ∧
          jsLtNum (toNum v) (now - (resolveVerifyOpts o).clockTolerance) = true)) ∧
    (resolveVerifyOpts { o with clockTolerance := none }).clockTolerance = 0 := by
  rw [verifyModel_reached vk now token secret o p0 p1 rest a hsplit hsec halg]
  rw [← nbfCond_iff pl now (resolveVerifyOpts o).clockTolerance,
    ← expCond_iff pl now (resolveVerifyOpts o).clockTolerance]
  rw [hpl] at hmatch ⊢
  have hm' : ¬ (headerAlgMatches
      { header := decodePayload (b64SegFix p0), payload := some pl }
      (resolveVerifyOpts o).algorithm = false) := by simp [hmatch]
  simp only [payloadRejects, htru, Bool.true_and, hthrow, if_true]
  rw [if_neg hm']
  refine ⟨?_, ?_, by simp [resolveVerifyOpts]⟩
  · by_cases hn : nbfCond pl now (resolveVerifyOpts o).clockTolerance = true
    · rw [if_pos hn]
      simp [hn]
    · rw [if_neg hn]
      simp only [hn, Bool.false_eq_true, iff_false]
      by_cases he : expCond pl now (resolveVerifyOpts o).clockTolerance = true
      · rw [if_pos he]
        simp [show cs "EXPIRED" ≠ cs "NOT_YET_VALID" from by decide]
      · rw [if_neg he]
        by_cases hnone : a.name = cs "none"
        · rw [if_pos hnone]; simp
        · rw [if_neg hnone]
          exact sigStage_ne_temporal vk _ _ _ true (cs "NOT_YET_VALID") (by decide)
  · by_cases hn : nbfCond pl now (resolveVerifyOpts o).clockTolerance = true
    · rw [if_pos hn]
      simp [hn, show cs "NOT_YET_VALID" ≠ cs "EXPIRED" from by decide]
    · rw [if_neg hn]
      by_cases he : expCond pl now (resolveVerifyOpts o).clockTolerance = true
      · rw [if_pos he]
        simp [hn, he]
      · rw [if_neg he]
        simp only [hn, he, Bool.false_eq_true, not_false_eq_true, true_and, and_false,
          iff_false]
        by_cases hnone : a.name = cs "none"
        · rw [if_pos hnone]; simp
        · rw [if_neg hnone]
          exact sigStage_ne_temporal vk _ _ _ true (cs "EXPIRED") (by decide)

/-- Witness for C2: a token with the number claim `exp: 5` verified at
`now = 100` under `throwError` raises `EXPIRED`, and so does a token
with the string claim `exp: "5"`, whose value coerces to 5. -/
theorem c2_temporal_characterization_witness :
    (verifyModel (fun _ _ => true) 100 tokenExp5 (.str (cs "k")) { throwErr := some true } =
      .raised (.error (cs "EXPIRED"))) ∧
    (verifyModel (fun _ _ => true) 100 tokenExpStr5 (.str (cs "k")) { throwErr := some true } =
      .raised (.error (cs "EXPIRED"))) := by
  constructor
  · have h := c2_temporal_characterization (fun _ _ => true) 100 tokenExp5 (.str (cs "k"))
      { throwErr := some true }
      (textToBase64Url (stringifyVal (.obj [(cs "alg", .str (cs "HS256"))])))
      (textToBase64Url (stringifyVal (.obj [(cs "exp", .num 5)]))) []
      { name := cs "HMAC", hash := some (cs "SHA-256") }
      (.obj [(cs "exp", .num 5)])
      (by decide) (by decide) (by decide) (by decide) (by decide) (by decide) (by decide)
    refine h.2.1.mpr ⟨?_, .num 5, rfl, by decide, by decide, by decide⟩
    rintro ⟨v, hv, -⟩
    rw [show getProp (JsonVal.obj [(cs "exp", JsonVal.num 5)]) (cs "nbf") = none from rfl]
      at hv
    cases hv
  · have h := c2_temporal_characterization (fun _ _ => true) 100 tokenExpStr5 (.str (cs "k"))
      { throwErr := some true }
      (textToBase64Url (stringifyVal (.obj [(cs "alg", .str (cs "HS256"))])))
      (textToBase64Url (stringifyVal (.obj [(cs "exp", .str (cs "5"))]))) []
      { name := cs "HMAC", hash := some (cs "SHA-256") }
      (.obj [(cs "exp", .str (cs "5"))])
      (by decide) (by decide) (by decide) (by decide) (by decide) (by decide) (by decide)
    refine h.2.1.mpr ⟨?_, .str (cs "5"), rfl, by decide, by decide, by decide⟩
    rintro ⟨v, hv, -⟩
    rw [show getProp (JsonVal.obj [(cs "exp", JsonVal.str (cs "5"))]) (cs "nbf") = none
      from rfl] at hv
    cases hv

/-- Counterexample for C2 as stated: the payload carries `exp: 0`, which
is present with `exp <= now` and `now - exp > clockTolerance`, so the
claim demands an `EXPIRED` rejection; the truthiness guard skips the
zero-valued claim and verification accepts the token. -/
theorem c2_counterexample :
    verifyModel (fun _ _ => true) 100 tokenExp0 (.str (cs "k")) { throwErr := some true } =
      .ok { header := some (.obj [(cs "alg", .str (cs "HS256"))]),
            payload := some (.obj [(cs "exp", .num 0)]) } := by
  decide

/-! ## UTF-8 round trip -/

/-- The Unicode scalar value range of a character. -/
theorem char_scalar (c : Char) :
    c.toNat < 55296 ∨ (57344 ≤ c.toNat ∧ c.toNat < 1114112) := c.valid

/-- Encoded bytes fit in one byte. -/
theorem utf8EncodeChar_lt256 (c : Char) : ∀ b ∈ utf8EncodeChar c, b < 256 := by
  have hc : c.toNat < 1114112 := by rcases char_scalar c with h | h <;> omega
  intro b hb
  unfold utf8EncodeChar at hb
  split_ifs at hb <;> simp only [List.mem_cons, List.not_mem_nil, or_false] at hb <;>
    rcases hb with rfl | rfl | rfl | rfl <;> omega

/-- All bytes of an encoded string fit in one byte. -/
theorem utf8Encode_lt256 (s : List Char) : ∀ b ∈ utf8Encode s, b < 256 := by
  intro b hb
  simp only [utf8Encode, List.mem_flatten, List.mem_map] at hb
  obtain ⟨l, ⟨c, _, rfl⟩, hbl⟩ := hb
  exact utf8EncodeChar_lt256 c b hbl

/-- One ASCII byte decodes and the decoder continues. -/
theorem utf8Decode_enc1 (b : Nat) (rest : List Nat) (h : b < 128) :
    utf8Decode (b :: rest) = Char.ofNat b :: utf8Decode rest := by
  rcases rest with _ | ⟨b1, _ | ⟨b2, _ | ⟨b3, r⟩⟩⟩ <;> simp [utf8Decode, h]

/-- One well-formed two-byte sequence decodes and the decoder
continues. -/
theorem utf8Decode_enc2 (b b1 : Nat) (rest : List Nat) (hb : 194 ≤ b) (h : b < 224)
    (hc : isCont b1 = true) :
    utf8Decode (b :: b1 :: rest) =
      Char.ofNat ((b - 192) * 64 + (b1 - 128)) :: utf8Decode rest := by
  rcases rest with _ | ⟨b2, _ | ⟨b3, r⟩⟩ <;>
    simp [utf8Decode, show ¬ b < 128 from by omega, show ¬ b < 194 from by omega, h, hc]

/-- One well-formed three-byte sequence decodes and the decoder
continues. -/
theorem utf8Decode_enc3 (b b1 b2 : Nat) (rest : List Nat) (hb : 224 ≤ b) (h : b < 240)
    (hc : isCont b1 = true ∧ isCont b2 = true ∧
      (¬ (b = 224 ∧ b1 < 160)) ∧ (¬ (b = 237 ∧ 160 ≤ b1))) :
    utf8Decode (b :: b1 :: b2 :: rest) =
      Char.ofNat ((b - 224) * 4096 + (b1 - 128) * 64 + (b2 - 128)) :: utf8Decode rest := by
  rcases rest with _ | ⟨b3, r⟩ <;>
    simp [utf8Decode, show ¬ b < 128 from by omega, show ¬ b < 194 from by omega,
      show ¬ b < 224 from by omega, h, hc.1, hc.2.1, hc.2.2.1, hc.2.2.2]

/-- One well-formed four-byte sequence decodes and the decoder
continues. -/
theorem utf8Decode_enc4 (b b1 b2 b3 : Nat) (rest : List Nat) (hb : 240 ≤ b) (h : b < 245)
    (hc : isCont b1 = true ∧ isCont b2 = true ∧ isCont b3 = true ∧
      (¬ (b = 240 ∧ b1 < 144)) ∧ (¬ (b = 244 ∧ 144 ≤ b1))) :
    utf8Decode (b :: b1 :: b2 :: b3 :: rest) =
      Char.ofNat ((b - 240) * 262144 + (b1 - 128) * 4096 + (b2 - 128) * 64 + (b3 - 128)) ::
        utf8Decode rest := by
  simp [utf8Decode, show ¬ b < 128 from by omega, show ¬ b < 194 from by omega,
    show ¬ b < 224 from by omega, show ¬ b < 240 from by omega, h,
    hc.1, hc.2.1, hc.2.2.1, hc.2.2.2.1, hc.2.2.2.2]

/-- Decoding consumes one encoded character and continues. -/
theorem utf8Decode_encodeChar (c : Char) (rest : List Nat) :
    utf8Decode (utf8EncodeChar c ++ rest) = c :: utf8Decode rest := by
  have hv := char_scalar c
  by_cases h1 : c.toNat < 128
  · have he : utf8EncodeChar c = [c.toNat] := by
      unfold utf8EncodeChar
      rw [if_pos h1]
    rw [he, List.cons_append, List.nil_append, utf8Decode_enc1 _ _ h1, Char.ofNat_toNat]
  · by_cases h2 : c.toNat < 2048
    · have he : utf8EncodeChar c = [192 + c.toNat / 64, 128 + c.toNat % 64] := by
        unfold utf8EncodeChar
        rw [if_neg h1, if_pos h2]
      rw [he]
      show utf8Decode ((192 + c.toNat / 64) :: (128 + c.toNat % 64) :: rest) =
        c :: utf8Decode rest
      rw [utf8Decode_enc2 _ _ _ (by omega) (by omega)
        (by simp only [isCont, decide_eq_true_eq]; omega)]
      rw [show (192 + c.toNat / 64 - 192) * 64 + (128 + c.toNat % 64 - 128) = c.toNat from by
        omega]
      rw [Char.ofNat_toNat]
    · by_cases h3 : c.toNat < 65536
      · have he : utf8EncodeChar c =
            [224 + c.toNat / 4096, 128 + c.toNat / 64 % 64, 128 + c.toNat % 64] := by
          unfold utf8EncodeChar
          rw [if_neg h1, if_neg h2, if_pos h3]
        rw [he]
        show utf8Decode ((224 + c.toNat / 4096) :: (128 + c.toNat / 64 % 64) ::
          (128 + c.toNat % 64) :: rest) = c :: utf8Decode rest
        rw [utf8Decode_enc3 _ _ _ _ (by omega) (by omega)
          ⟨by simp only [isCont, decide_eq_true_eq]; omega,
           by simp only [isCont, decide_eq_true_eq]; omega,
           by rintro ⟨hA, hB⟩; omega,
           by rintro ⟨hA, hB⟩; rcases hv with h | h <;> omega⟩]
        rw [show (224 + c.toNat / 4096 - 224) * 4096 + (128 + c.toNat / 64 % 64 - 128) * 64 +
          (128 + c.toNat % 64 - 128) = c.toNat from by omega]
        rw [Char.ofNat_toNat]
      · have he : utf8EncodeChar c = [240 + c.toNat / 262144, 128 + c.toNat / 4096 % 64,
            128 + c.toNat / 64 % 64, 128 + c.toNat % 64] := by
          unfold utf8EncodeChar
          rw [if_neg h1, if_neg h2, if_neg h3]
        have hup : c.toNat < 1114112 := by rcases hv with h | h <;> omega
        rw [he]
        show utf8Decode ((240 + c.toNat / 262144) :: (128 + c.toNat / 4096 % 64) ::
          (128 + c.toNat / 64 % 64) :: (128 + c.toNat % 64) :: rest) = c :: utf8Decode rest
        rw [utf8Decode_enc4 _ _ _ _ _ (by omega) (by omega)
          ⟨by simp only [isCont, decide_eq_true_eq]; omega,
           by simp only [isCont, decide_eq_true_eq]; omega,
           by simp only [isCont, decide_eq_true_eq]; omega,
           by rintro ⟨hA, hB⟩; omega,
           by rintro ⟨hA, hB⟩; omega⟩]
        rw [show (240 + c.toNat / 262144 - 240) * 262144 + (128 + c.toNat / 4096 % 64 - 128) *
          4096 + (128 + c.toNat / 64 % 64 - 128) * 64 + (128 + c.toNat % 64 - 128) = c.toNat
          from by omega]
        rw [Char.ofNat_toNat]

/-- The UTF-8 round trip: `TextDecoder` inverts `TextEncoder`. -/
theorem utf8_roundtrip (s : List Char) : utf8Decode (utf8Encode s) = s := by
  induction s with
  | nil => rfl
  | cons c T ih =>
    have : utf8Encode (c :: T) = utf8EncodeChar c ++ utf8Encode T := by
      simp [utf8Encode]
    rw [this, utf8Decode_encodeChar, ih]

/-! ## JSON round trip: numbers -/

/-- Digit characters decode back to their value. -/
theorem digitChar_facts : ∀ d < 10,
    isDigitCh (Char.ofNat (48 + d)) = true ∧ (Char.ofNat (48 + d)).toNat = 48 + d ∧
    ¬ (Char.ofNat (48 + d) = '-') ∧ (Char.ofNat (48 + d) = '0' → d = 0) := by
  decide

/-- All decimal digits are below ten. -/
theorem natDigits_lt (n : Nat) : ∀ d ∈ natDigits n, d < 10 := by
  induction n using Nat.strong_induction_on with
  | _ n ih =>
    by_cases h : n < 10
    · rw [natDigits_lt10 n h]
      intro d hd
      simp only [List.mem_singleton] at hd
      omega
    · rw [natDigits_ge10 n (by omega)]
      intro d hd
      rcases List.mem_append.mp hd with hd | hd
      · exact ih (n / 10) (by omega) d hd
      · simp only [List.mem_singleton] at hd
        omega

/-- `natDigits` is never empty. -/
theorem natDigits_ne_nil (n : Nat) : natDigits n ≠ [] := by
  by_cases h : n < 10
  · rw [natDigits_lt10 n h]; simp
  · rw [natDigits_ge10 n (by omega)]; simp

/-- The leading digit of a positive number is nonzero. -/
theorem natDigits_head_ne0 (n : Nat) (hp : 1 ≤ n) :
    ∀ d ds, natDigits n = d :: ds → d ≠ 0 := by
  induction n using Nat.strong_induction_on with
  | _ n ih =>
    intro d ds hd
    by_cases h : n < 10
    · rw [natDigits_lt10 n h] at hd
      injection hd with h1 _
      omega
    · rw [natDigits_ge10 n (by omega)] at hd
      rcases hq : natDigits (n / 10) with _ | ⟨d0, ds0⟩
      · exact absurd hq (natDigits_ne_nil _)
      · rw [hq] at hd
        simp only [List.cons_append] at hd
        injection hd with h1 _
        rw [← h1]
        exact ih (n / 10) (by omega) (by omega) d0 ds0 hq

/-- Digit accumulation over an appended digit string. -/
theorem parseDigitsAcc_append (ds : List Nat) (hd : ∀ d ∈ ds, d < 10) (acc : Nat)
    (rest : List Char) (hrest : headIsDigit rest = false) :
    parseDigitsAcc acc ((ds.map (fun d => Char.ofNat (48 + d))) ++ rest) =
      (ds.foldl (fun a d => a * 10 + d) acc, rest) := by
  induction ds generalizing acc with
  | nil =>
    rcases rest with _ | ⟨c, r⟩
    · rfl
    · simp only [headIsDigit] at hrest
      simp [parseDigitsAcc, hrest]
  | cons d ds ih =>
    have hfacts := digitChar_facts d (hd d (by simp))
    have htn : (Char.ofNat (48 + d)).toNat - 48 = d := by rw [hfacts.2.1]; omega
    simp only [List.map_cons, List.cons_append, parseDigitsAcc, hfacts.1, if_true,
      htn, List.foldl_cons]
    exact ih (fun x hx => hd x (by simp [hx])) _

/-- Folding the digits of `n` onto an accumulator. -/
theorem natDigits_foldl (n : Nat) : ∀ acc,
    (natDigits n).foldl (fun a d => a * 10 + d) acc =
      acc * 10 ^ (natDigits n).length + n := by
  induction n using Nat.strong_induction_on with
  | _ n ih =>
    intro acc
    by_cases h : n < 10
    · rw [natDigits_lt10 n h]
      simp
    · rw [natDigits_ge10 n (by omega)]
      rw [List.foldl_append, List.length_append, ih (n / 10) (by omega) acc]
      simp only [List.foldl_cons, List.foldl_nil, List.length_cons, List.length_nil]
      rw [pow_succ]
      ring_nf
      omega

/-- `parseNumber` inverts `intChars` when the remainder does not start
with a digit. -/
theorem parseNumber_intChars (n : Int) (rest : List Char) (hrest : headIsDigit rest = false) :
    parseNumber (intChars n ++ rest) = some (n, rest) := by
  have core : ∀ m : Nat, ∃ (d0 : Nat) (ds : List Nat),
      natChars m = Char.ofNat (48 + d0) :: (ds.map (fun d => Char.ofNat (48 + d))) ∧
      isDigitCh (Char.ofNat (48 + d0)) = true ∧
      ¬ (Char.ofNat (48 + d0) = '0' ∧ headIsDigit
          ((ds.map (fun d => Char.ofNat (48 + d))) ++ rest) = true) ∧
      (Char.ofNat (48 + d0)).toNat - 48 = d0 ∧
      ¬ (Char.ofNat (48 + d0) = '-') ∧
      parseDigitsAcc d0 ((ds.map (fun d => Char.ofNat (48 + d))) ++ rest) = (m, rest) := by
    intro m
    rcases hq : natDigits m with _ | ⟨d0, ds⟩
    · exact absurd hq (natDigits_ne_nil _)
    have hlt := natDigits_lt m
    rw [hq] at hlt
    have hd0 := digitChar_facts d0 (hlt d0 (by simp))
    refine ⟨d0, ds, by simp [natChars, hq], hd0.1, ?_, by rw [hd0.2.1]; omega, hd0.2.2.1, ?_⟩
    · by_cases hm : m < 10
      · rw [natDigits_lt10 m hm] at hq
        injection hq with h1 h2
        subst h2
        rintro ⟨-, h⟩
        simp only [List.map_nil, List.nil_append] at h
        rw [hrest] at h
        exact Bool.false_ne_true h
      · have hne := natDigits_head_ne0 m (by omega) d0 ds hq
        rintro ⟨hc, -⟩
        exact hne (hd0.2.2.2 hc)
    · rw [parseDigitsAcc_append ds (fun x hx => hlt x (by simp [hx])) d0 rest hrest]
      have hfold := natDigits_foldl m 0
      rw [hq] at hfold
      simp only [List.foldl_cons, Nat.zero_mul, Nat.zero_add] at hfold
      rw [hfold]
  cases n with
  | ofNat m =>
    obtain ⟨d0, ds, hnat, hdig, hzero, htn, hneg, hacc⟩ := core m
    rw [show intChars (Int.ofNat m) = natChars m from rfl, hnat]
    simp only [List.cons_append, parseNumber, if_neg hneg, if_pos hdig, if_neg hzero,
      htn, hacc]
    rfl
  | negSucc m =>
    obtain ⟨d0, ds, hnat, hdig, hzero, htn, _, hacc⟩ := core (m + 1)
    rw [show intChars (Int.negSucc m) = '-' :: natChars (m + 1) from rfl, hnat]
    simp only [List.cons_append, parseNumber, if_pos rfl, if_pos hdig, if_neg hzero,
      htn, hacc]
    have : -((m : Int) + 1) = Int.negSucc m := by
      rw [Int.negSucc_eq]
    simp only [Int.natCast_add, Int.natCast_one, this, if_true]

/-! ## JSON round trip: string literals -/

/-- `psbEsc` only depends on the values of `rec` at suffixes of its
input. -/
theorem psbEsc_congr (rec1 rec2 : List Char → Option (List Char × List Char))
    (e : Char) (r2 : List Char)
    (h : ∀ l, l.length ≤ r2.length → rec1 l = rec2 l) :
    psbEsc rec1 e r2 = psbEsc rec2 e r2 := by
  unfold psbEsc
  by_cases h1 : e = dquote
  · rw [if_pos h1, if_pos h1, h r2 le_rfl]
  rw [if_neg h1, if_neg h1]
  by_cases h2 : e = bslash
  · rw [if_pos h2, if_pos h2, h r2 le_rfl]
  rw [if_neg h2, if_neg h2]
  by_cases h3 : e = '/'
  · rw [if_pos h3, if_pos h3, h r2 le_rfl]
  rw [if_neg h3, if_neg h3]
  by_cases h4 : e = 'b'
  · rw [if_pos h4, if_pos h4, h r2 le_rfl]
  rw [if_neg h4, if_neg h4]
  by_cases h5 : e = 'f'
  · rw [if_pos h5, if_pos h5, h r2 le_rfl]
  rw [if_neg h5, if_neg h5]
  by_cases h6 : e = 'n'
  · rw [if_pos h6, if_pos h6, h r2 le_rfl]
  rw [if_neg h6, if_neg h6]
  by_cases h7 : e = 'r'
  · rw [if_pos h7, if_pos h7, h r2 le_rfl]
  rw [if_neg h7, if_neg h7]
  by_cases h8 : e = 't'
  · rw [if_pos h8, if_pos h8, h r2 le_rfl]
  rw [if_neg h8, if_neg h8]
  by_cases h9 : e = 'u'
  · rw [if_pos h9, if_pos h9]
    rcases r2 with _ | ⟨x1, _ | ⟨x2, _ | ⟨x3, _ | ⟨x4, r3⟩⟩⟩⟩
    · rfl
    · rfl
    · rfl
    · rfl
    · dsimp only
      rcases hexVal4 x1 x2 x3 x4 with _ | code
      · rfl
      · dsimp only
        by_cases hs : (code : Nat) < 0xD800 ∨ 0xE000 ≤ code
        · rw [if_pos hs, if_pos hs, h r3 (by simp only [List.length_cons]; omega)]
        · rw [if_neg hs, if_neg hs]
  · rw [if_neg h9, if_neg h9]

/-- The fuel argument of `psbAux` is irrelevant once it dominates the
input length. -/
theorem psbAux_congr : ∀ f1 f2 s, s.length ≤ f1 → s.length ≤ f2 →
    psbAux f1 s = psbAux f2 s := by
  intro f1
  induction f1 with
  | zero =>
    intro f2 s h1 _
    have h0 : s = [] := List.length_eq_zero.mp (Nat.le_zero.mp h1)
    subst h0
    cases f2 <;> simp [psbAux]
  | succ f1 ih =>
    intro f2 s h1 h2
    rcases s with _ | ⟨c, r⟩
    · cases f2 <;> simp [psbAux]
    rcases f2 with _ | f2
    · simp at h2
    simp only [List.length_cons] at h1 h2
    simp only [psbAux]
    by_cases hc1 : c = dquote
    · rw [if_pos hc1, if_pos hc1]
    rw [if_neg hc1, if_neg hc1]
    by_cases hc2 : c = bslash
    · rw [if_pos hc2, if_pos hc2]
      rcases r with _ | ⟨e, r2⟩
      · rfl
      · exact psbEsc_congr (psbAux f1) (psbAux f2) e r2
          (fun l hl => ih f2 l (by simp at h1; omega) (by simp at h2; omega))
    rw [if_neg hc2, if_neg hc2]
    by_cases hc3 : c.toNat < 32
    · rw [if_pos hc3, if_pos hc3]
    rw [if_neg hc3, if_neg hc3, ih f2 r (by omega) (by omega)]

/-- A closing quote ends the string body. -/
theorem psb_close (r : List Char) : parseStringBody (dquote :: r) = some ([], r) := rfl

/-- One escape step, stated over `parseStringBody` itself. -/
theorem psb_esc_step (e : Char) (r : List Char) :
    parseStringBody (bslash :: e :: r) = psbEsc parseStringBody e r := by
  have h0 : parseStringBody (bslash :: e :: r) = psbEsc (psbAux (r.length + 1)) e r := rfl
  rw [h0]
  exact psbEsc_congr (psbAux (r.length + 1)) parseStringBody e r
    (fun l hl => psbAux_congr (r.length + 1) l.length l (by omega) le_rfl)

/-- Escaped quote. -/
theorem psb_esc_dq (r : List Char) : parseStringBody (bslash :: dquote :: r) =
    (parseStringBody r).map (fun p => (dquote :: p.1, p.2)) := by
  rw [psb_esc_step]
  unfold psbEsc
  rw [if_pos rfl]

/-- Escaped backslash. -/
theorem psb_esc_bs (r : List Char) : parseStringBody (bslash :: bslash :: r) =
    (parseStringBody r).map (fun p => (bslash :: p.1, p.2)) := by
  rw [psb_esc_step]
  unfold psbEsc
  rw [if_neg (by decide), if_pos rfl]

/-- Escaped backspace. -/
theorem psb_esc_b (r : List Char) : parseStringBody (bslash :: 'b' :: r) =
    (parseStringBody r).map (fun p => (Char.ofNat 8 :: p.1, p.2)) := by
  rw [psb_esc_step]
  unfold psbEsc
  rw [if_neg (by decide), if_neg (by decide), if_neg (by decide), if_pos rfl]

/-- Escaped form feed. -/
theorem psb_esc_f (r : List Char) : parseStringBody (bslash :: 'f' :: r) =
    (parseStringBody r).map (fun p => (Char.ofNat 12 :: p.1, p.2)) := by
  rw [psb_esc_step]
  unfold psbEsc
  rw [if_neg (by decide), if_neg (by decide), if_neg (by decide), if_neg (by decide),
    if_pos rfl]

/-- Escaped line feed. -/
theorem psb_esc_n (r : List Char) : parseStringBody (bslash :: 'n' :: r) =
    (parseStringBody r).map (fun p => (Char.ofNat 10 :: p.1, p.2)) := by
  rw [psb_esc_step]
  unfold psbEsc
  rw [if_neg (by decide), if_neg (by decide), if_neg (by decide), if_neg (by decide),
    if_neg (by decide), if_pos rfl]

/-- Escaped carriage return. -/
theorem psb_esc_r (r : List Char) : parseStringBody (bslash :: 'r' :: r) =
    (parseStringBody r).map (fun p => (Char.ofNat 13 :: p.1, p.2)) := by
  rw [psb_esc_step]
  unfold psbEsc
  rw [if_neg (by decide), if_neg (by decide), if_neg (by decide), if_neg (by decide),
    if_neg (by decide), if_neg (by decide), if_pos rfl]

/-- Escaped tab. -/
theorem psb_esc_t (r : List Char) : parseStringBody (bslash :: 't' :: r) =
    (parseStringBody r).map (fun p => (Char.ofNat 9 :: p.1, p.2)) := by
  rw [psb_esc_step]
  unfold psbEsc
  rw [if_neg (by decide), if_neg (by decide), if_neg (by decide), if_neg (by decide),
    if_neg (by decide), if_neg (by decide), if_neg (by decide), if_pos rfl]

/-- `hexVal` inverts `hexChar` below 16. -/
theorem hexVal_hexChar : ∀ m < 16, hexVal (hexChar m) = some m := by
  decide

/-- A `\u00xx` escape of a control character. -/
theorem psb_esc_u00 (hi lo : Nat) (hhi : hi < 2) (hlo : lo < 16) (r : List Char) :
    parseStringBody (bslash :: 'u' :: '0' :: '0' :: hexChar hi :: hexChar lo :: r) =
      (parseStringBody r).map (fun p => (Char.ofNat (hi * 16 + lo) :: p.1, p.2)) := by
  rw [psb_esc_step]
  show (match hexVal4 '0' '0' (hexChar hi) (hexChar lo) with
    | some code =>
      if code < 0xD800 ∨ 0xE000 ≤ code then
        (parseStringBody r).map
          (fun (p : List Char × List Char) => (Char.ofNat code :: p.1, p.2))
      else none
    | none => none) = _
  rw [show hexVal4 '0' '0' (hexChar hi) (hexChar lo) = some (hi * 16 + lo) from by
    simp [hexVal4, show hexVal '0' = some 0 from by decide, hexVal_hexChar hi (by omega),
      hexVal_hexChar lo (by omega)]]
  dsimp only
  rw [if_pos (Or.inl (by omega : (hi * 16 + lo : Nat) < 0xD800))]

/-- An unescaped printable character other than quote and backslash
stands for itself. -/
theorem psb_raw (c : Char) (r : List Char) (h1 : ¬ c = dquote) (h2 : ¬ c = bslash)
    (h3 : ¬ c.toNat < 32) :
    parseStringBody (c :: r) = (parseStringBody r).map (fun p => (c :: p.1, p.2)) := by
  show psbAux (r.length + 1) (c :: r) = _
  simp only [psbAux, if_neg h1, if_neg h2, if_neg h3]
  rfl

/-- `parseStringBody` inverts `escapeList` followed by a closing quote. -/
theorem parseStringBody_escape (s rest : List Char) :
    parseStringBody (escapeList s ++ dquote :: rest) = some (s, rest) := by
  induction s with
  | nil => simpa [escapeList] using psb_close rest
  | cons c T ih =>
    have hstep : escapeList (c :: T) = escapeChar c ++ escapeList T := by
      simp [escapeList]
    rw [hstep, List.append_assoc]
    by_cases h1 : c = dquote
    · subst h1
      rw [show escapeChar dquote = [bslash, dquote] from by decide]
      simp only [List.cons_append, List.nil_append]
      rw [psb_esc_dq, ih]
      rfl
    by_cases h2 : c = bslash
    · subst h2
      rw [show escapeChar bslash = [bslash, bslash] from by decide]
      simp only [List.cons_append, List.nil_append]
      rw [psb_esc_bs, ih]
      rfl
    by_cases h3 : c.toNat = 8
    · have hc : c = Char.ofNat 8 := by rw [← h3, Char.ofNat_toNat]
      rw [show escapeChar c = [bslash, 'b'] from by simp [escapeChar, h1, h2, h3]]
      simp only [List.cons_append, List.nil_append]
      rw [psb_esc_b, ih, hc]
      rfl
    by_cases h4 : c.toNat = 9
    · have hc : c = Char.ofNat 9 := by rw [← h4, Char.ofNat_toNat]
      rw [show escapeChar c = [bslash, 't'] from by simp [escapeChar, h1, h2, h3, h4]]
      simp only [List.cons_append, List.nil_append]
      rw [psb_esc_t, ih, hc]
      rfl
    by_cases h5 : c.toNat = 10
    · have hc : c = Char.ofNat 10 := by rw [← h5, Char.ofNat_toNat]
      rw [show escapeChar c = [bslash, 'n'] from by simp [escapeChar, h1, h2, h3, h4, h5]]
      simp only [List.cons_append, List.nil_append]
      rw [psb_esc_n, ih, hc]
      rfl
    by_cases h6 : c.toNat = 12
    · have hc : c = Char.ofNat 12 := by rw [← h6, Char.ofNat_toNat]
      rw [show escapeChar c = [bslash, 'f'] from by
        simp [escapeChar, h1, h2, h3, h4, h5, h6]]
      simp only [List.cons_append, List.nil_append]
      rw [psb_esc_f, ih, hc]
      rfl
    by_cases h7 : c.toNat = 13
    · have hc : c = Char.ofNat 13 := by rw [← h7, Char.ofNat_toNat]
      rw [show escapeChar c = [bslash, 'r'] from by
        simp [escapeChar, h1, h2, h3, h4, h5, h6, h7]]
      simp only [List.cons_append, List.nil_append]
      rw [psb_esc_r, ih, hc]
      rfl
    by_cases h8 : c.toNat < 32
    · have hc : c = Char.ofNat (c.toNat / 16 * 16 + c.toNat % 16) := by
        rw [show c.toNat / 16 * 16 + c.toNat % 16 = c.toNat from by omega, Char.ofNat_toNat]
      rw [show escapeChar c =
          [bslash, 'u', '0', '0', hexChar (c.toNat / 16), hexChar (c.toNat % 16)] from by
        simp [escapeChar, h1, h2, h3, h4, h5, h6, h7, h8]]
      simp only [List.cons_append, List.nil_append]
      rw [psb_esc_u00 (c.toNat / 16) (c.toNat % 16) (by omega) (by omega), ih]
      simp only [Option.map_some']
      rw [← hc]
    · rw [show escapeChar c = [c] from by simp [escapeChar, h1, h2, h3, h4, h5, h6, h7, h8]]
      simp only [List.cons_append, List.nil_append]
      rw [psb_raw c _ h1 h2 h8, ih]
      rfl

/-! ## JSON round trip: values -/

/-- Every JSON value has positive size. -/
theorem sizeJ_pos (v : JsonVal) : 1 ≤ sizeJ v := by
  cases v <;> simp [sizeJ]

/-- Every non-empty element list has positive size. -/
theorem sizeJL_pos (v : JsonVal) (vs : List JsonVal) : 1 ≤ sizeJL (v :: vs) := by
  simp [sizeJL]

/-- Every non-empty field list has positive size. -/
theorem sizeJF_pos (kv : List Char × JsonVal) (fl : List (List Char × JsonVal)) :
    1 ≤ sizeJF (kv :: fl) := by
  rcases kv with ⟨k, v⟩
  simp [sizeJF]

/-- `skipWs` does not consume a non-whitespace head. -/
theorem skipWs_cons (c : Char) (l : List Char) (h : isJsonWs c = false) :
    skipWs (c :: l) = c :: l := by
  simp [skipWs, List.dropWhile_cons, h]

/-- The first character of a serialised number, with the facts needed to
steer `parseVal` into its number branch. -/
theorem num_head (n : Int) : ∃ c t, intChars n = c :: t ∧ isJsonWs c = false ∧
    ¬ c = 'n' ∧ ¬ c = 't' ∧ ¬ c = 'f' ∧ ¬ c = dquote ∧ ¬ c = '[' ∧ ¬ c = lbrace ∧
    ¬ c = ']' := by
  have digit : ∀ d < 10, isJsonWs (Char.ofNat (48 + d)) = false ∧
      ¬ Char.ofNat (48 + d) = 'n' ∧ ¬ Char.ofNat (48 + d) = 't' ∧
      ¬ Char.ofNat (48 + d) = 'f' ∧ ¬ Char.ofNat (48 + d) = dquote ∧
      ¬ Char.ofNat (48 + d) = '[' ∧ ¬ Char.ofNat (48 + d) = lbrace ∧
      ¬ Char.ofNat (48 + d) = ']' := by decide
  cases n with
  | ofNat m =>
    rcases hq : natDigits m with _ | ⟨d0, ds⟩
    · exact absurd hq (natDigits_ne_nil m)
    · have hlt := natDigits_lt m
      rw [hq] at hlt
      have hd := digit d0 (hlt d0 (by simp))
      refine ⟨Char.ofNat (48 + d0), ds.map (fun d => Char.ofNat (48 + d)), ?_,
        hd.1, hd.2.1, hd.2.2.1, hd.2.2.2.1, hd.2.2.2.2.1, hd.2.2.2.2.2.1,
        hd.2.2.2.2.2.2.1, hd.2.2.2.2.2.2.2⟩
      simp [intChars, natChars, hq]
  | negSucc m =>
    exact ⟨'-', natChars (m + 1), rfl, by decide, by decide, by decide, by decide,
      by decide, by decide, by decide, by decide⟩

/-- A serialised value starts with a non-whitespace character other than
a closing bracket. -/
theorem stringify_head (v : JsonVal) : ∃ c t, stringifyVal v = c :: t ∧
    isJsonWs c = false ∧ ¬ c = ']' := by
  cases v with
  | null => exact ⟨'n', _, rfl, by decide, by decide⟩
  | bool b =>
    cases b
    · exact ⟨'f', _, rfl, by decide, by decide⟩
    · exact ⟨'t', _, rfl, by decide, by decide⟩
  | num n =>
    obtain ⟨c, t, hv, hws, -, -, -, -, -, -, hne⟩ := num_head n
    exact ⟨c, t, by rw [show stringifyVal (.num n) = intChars n from rfl, hv], hws, hne⟩
  | str s => exact ⟨dquote, _, rfl, by decide, by decide⟩
  | arr vs => exact ⟨'[', _, rfl, by decide, by decide⟩
  | obj fs => exact ⟨lbrace, _, rfl, by decide, by decide⟩

/-- A serialised non-empty field list starts with a quote. -/
theorem stringifyFields_cons (k : List Char) (v : JsonVal)
    (fs : List (List Char × JsonVal)) :
    ∃ t, stringifyFields ((k, v) :: fs) = dquote :: t := by
  cases fs
  · exact ⟨_, rfl⟩
  · exact ⟨_, rfl⟩

/-- `parseVal` on input that starts with none of the keyword, string,
array or object openers goes to the number branch. -/
theorem parseVal_other (f : Nat) (c : Char) (l : List Char) (hws : isJsonWs c = false)
    (h1 : ¬ c = 'n') (h2 : ¬ c = 't') (h3 : ¬ c = 'f') (h4 : ¬ c = dquote)
    (h5 : ¬ c = '[') (h6 : ¬ c = lbrace) :
    parseVal (f + 1) (c :: l) = (parseNumber (c :: l)).map (fun p => (.num p.1, p.2)) := by
  rw [parseVal.eq_def]
  dsimp only
  rw [show skipWs (c :: l) = c :: l from skipWs_cons c l hws]
  dsimp only
  simp only [if_neg h1, if_neg h2, if_neg h3, if_neg h4, if_neg h5, if_neg h6]

mutual

/-- `parseVal` inverts `stringifyVal` whenever the fuel covers the value
size and the remainder does not continue the final token. -/
theorem parseVal_stringify (v : JsonVal) (fuel : Nat) (rest : List Char)
    (hf : sizeJ v ≤ fuel) (hrest : headIsDigit rest = false) :
    parseVal fuel (stringifyVal v ++ rest) = some (v, rest) := by
  rcases fuel with _ | f
  · exact absurd hf (by have := sizeJ_pos v; omega)
  cases v with
  | null => exact rfl
  | bool b =>
    cases b
    · exact rfl
    · exact rfl
  | num n =>
    obtain ⟨c, t, hv, hws, h1, h2, h3, h4, h5, h6, -⟩ := num_head n
    rw [show stringifyVal (.num n) = intChars n from rfl, hv, List.cons_append,
      parseVal_other f c (t ++ rest) hws h1 h2 h3 h4 h5 h6, ← List.cons_append, ← hv,
      parseNumber_intChars n rest hrest]
    rfl
  | str s =>
    have h0 : parseVal (f + 1) (stringifyVal (.str s) ++ rest) =
        (parseStringBody ((escapeList s ++ [dquote]) ++ rest)).map
          (fun p => (JsonVal.str p.1, p.2)) := rfl
    rw [h0, List.append_assoc, List.singleton_append, parseStringBody_escape]
    rfl
  | arr vs =>
    rcases vs with _ | ⟨v1, vs2⟩
    · exact rfl
    · obtain ⟨c, t, hv1, hws, hcne⟩ := stringify_head v1
      have hse : ∃ t2, stringifyElems (v1 :: vs2) = c :: t2 := by
        rcases vs2 with _ | ⟨v2, vs3⟩
        · exact ⟨t, by rw [show stringifyElems [v1] = stringifyVal v1 from rfl, hv1]⟩
        · refine ⟨t ++ ',' :: stringifyElems (v2 :: vs3), ?_⟩
          rw [show stringifyElems (v1 :: v2 :: vs3) =
            stringifyVal v1 ++ ',' :: stringifyElems (v2 :: vs3) from rfl, hv1,
            List.cons_append]
      obtain ⟨t2, hse⟩ := hse
      have hr : stringifyVal (.arr (v1 :: vs2)) ++ rest =
          '[' :: (stringifyElems (v1 :: vs2) ++ ']' :: rest) := by
        show ('[' :: stringifyElems (v1 :: vs2) ++ [']']) ++ rest = _
        simp
      rw [hr]
      have h0 : parseVal (f + 1) ('[' :: (stringifyElems (v1 :: vs2) ++ ']' :: rest)) =
          (match skipWs (stringifyElems (v1 :: vs2) ++ ']' :: rest) with
            | ']' :: r2 => some (JsonVal.arr [], r2)
            | _ => (parseElems f (stringifyElems (v1 :: vs2) ++ ']' :: rest)).map
                (fun p => (JsonVal.arr p.1, p.2))) := rfl
      rw [h0, hse, List.cons_append, skipWs_cons c _ hws]
      split
      · next r2 heq =>
        exact absurd (List.head_eq_of_cons_eq heq.symm) (fun h => hcne h.symm)
      · rw [← List.cons_append, ← hse,
          parseElems_stringify (v1 :: vs2) f rest (by simp)
            (by simp only [sizeJ] at hf; omega)]
        rfl
  | obj fs =>
    rcases fs with _ | ⟨⟨k, v1⟩, fs2⟩
    · exact rfl
    · obtain ⟨t, ht⟩ := stringifyFields_cons k v1 fs2
      have hr : stringifyVal (.obj ((k, v1) :: fs2)) ++ rest =
          lbrace :: (stringifyFields ((k, v1) :: fs2) ++ rbrace :: rest) := by
        show (lbrace :: stringifyFields ((k, v1) :: fs2) ++ [rbrace]) ++ rest = _
        simp
      rw [hr]
      have h0 : parseVal (f + 1)
          (lbrace :: (stringifyFields ((k, v1) :: fs2) ++ rbrace :: rest)) =
          (match skipWs (stringifyFields ((k, v1) :: fs2) ++ rbrace :: rest) with
            | c2 :: r2 =>
              if c2 = rbrace then some (JsonVal.obj [], r2)
              else (parseFields f
                  (lbrace :: (stringifyFields ((k, v1) :: fs2) ++ rbrace :: rest))).map
                  (fun p => (JsonVal.obj p.1, p.2))
            | [] => none) := rfl
      rw [h0]
      conv_lhs => rw [ht, List.cons_append, skipWs_cons dquote _ (by decide)]
      dsimp only
      rw [if_neg (show ¬ dquote = rbrace from by decide),
        show lbrace :: dquote :: (t ++ rbrace :: rest) =
          lbrace :: (stringifyFields ((k, v1) :: fs2) ++ rbrace :: rest) from by
            rw [ht, List.cons_append],
        parseFields_stringify ((k, v1) :: fs2) f rest lbrace (by simp)
          (by simp only [sizeJ] at hf; omega)]
      rfl

/-- `parseElems` inverts `stringifyElems` on a non-empty element list
followed by the closing bracket. -/
theorem parseElems_stringify (vs : List JsonVal) (fuel : Nat) (rest : List Char)
    (hne : vs ≠ []) (hf : sizeJL vs ≤ fuel) :
    parseElems fuel (stringifyElems vs ++ ']' :: rest) = some (vs, rest) := by
  rcases vs with _ | ⟨v, vs2⟩
  · exact absurd rfl hne
  rcases fuel with _ | f
  · exact absurd hf (by have := sizeJL_pos v vs2; omega)
  have h0 : ∀ s, parseElems (f + 1) s = (do
      let (w, r) ← parseVal f s
      match skipWs r with
      | ',' :: r2 => (parseElems f r2).map (fun p => (w :: p.1, p.2))
      | ']' :: r2 => some ([w], r2)
      | _ => none) := fun s => rfl
  rcases vs2 with _ | ⟨v2, vs3⟩
  · rw [show stringifyElems [v] = stringifyVal v from rfl, h0,
      parseVal_stringify v f (']' :: rest) (by simp only [sizeJL] at hf; omega) rfl]
    rfl
  · rw [show stringifyElems (v :: v2 :: vs3) ++ ']' :: rest =
      stringifyVal v ++ (',' :: (stringifyElems (v2 :: vs3) ++ ']' :: rest)) from by
        rw [show stringifyElems (v :: v2 :: vs3) =
          stringifyVal v ++ ',' :: stringifyElems (v2 :: vs3) from rfl,
          List.append_assoc, List.cons_append]]
    rw [h0, parseVal_stringify v f
      (',' :: (stringifyElems (v2 :: vs3) ++ ']' :: rest))
      (by simp only [sizeJL] at hf; omega) rfl]
    show (parseElems f (stringifyElems (v2 :: vs3) ++ ']' :: rest)).map
        (fun p => (v :: p.1, p.2)) = some (v :: v2 :: vs3, rest)
    rw [parseElems_stringify (v2 :: vs3) f rest (by simp)
      (by simp only [sizeJL] at hf ⊢; omega)]
    rfl

/-- `parseFields` inverts `stringifyFields` on a non-empty field list
followed by the closing brace; the first input character (the opening
brace or a comma) is skipped unexamined. -/
theorem parseFields_stringify (fl : List (List Char × JsonVal)) (fuel : Nat)
    (rest : List Char) (x : Char) (hne : fl ≠ []) (hf : sizeJF fl ≤ fuel) :
    parseFields fuel (x :: (stringifyFields fl ++ rbrace :: rest)) = some (fl, rest) := by
  rcases fl with _ | ⟨⟨k, v⟩, fs2⟩
  · exact absurd rfl hne
  rcases fuel with _ | f
  · exact absurd hf (by have := sizeJF_pos (k, v) fs2; omega)
  have h0 : ∀ (y : Char) (l : List Char), parseFields (f + 1) (y :: l) =
      (match skipWs l with
        | c :: r2 =>
          if c = dquote then do
            let (k2, r3) ← parseStringBody r2
            match skipWs r3 with
            | ':' :: r4 => do
              let (v2, r5) ← parseVal f r4
              match skipWs r5 with
              | ',' :: r6 =>
                (parseFields f (',' :: r6)).map (fun p => ((k2, v2) :: p.1, p.2))
              | c2 :: r6 => if c2 = rbrace then some ([(k2, v2)], r6) else none
              | [] => none
            | _ => none
          else none
        | [] => none) := fun y l => rfl
  rcases fs2 with _ | ⟨⟨k2h, v2h⟩, fs3⟩
  · have hl : stringifyFields [(k, v)] ++ rbrace :: rest =
        dquote :: (escapeList k ++ dquote :: ':' :: (stringifyVal v ++ rbrace :: rest)) := by
      show (dquote :: escapeList k ++ dquote :: ':' :: stringifyVal v) ++ rbrace :: rest = _
      simp
    rw [hl, h0, skipWs_cons dquote _ (by decide)]
    dsimp only
    rw [if_pos rfl, parseStringBody_escape k (':' :: (stringifyVal v ++ rbrace :: rest))]
    show (do
        let (v2, r5) ← parseVal f (stringifyVal v ++ rbrace :: rest)
        match skipWs r5 with
        | ',' :: r6 => (parseFields f (',' :: r6)).map (fun p => ((k, v2) :: p.1, p.2))
        | c2 :: r6 => if c2 = rbrace then some ([(k, v2)], r6) else none
        | [] => none) = some ([(k, v)], rest)
    rw [parseVal_stringify v f (rbrace :: rest) (by simp only [sizeJF] at hf; omega) rfl]
    rfl
  · have hl : stringifyFields ((k, v) :: (k2h, v2h) :: fs3) ++ rbrace :: rest =
        dquote :: (escapeList k ++ dquote :: ':' :: (stringifyVal v ++
          ',' :: (stringifyFields ((k2h, v2h) :: fs3) ++ rbrace :: rest))) := by
      show (dquote :: escapeList k ++ dquote :: ':' :: stringifyVal v ++
        ',' :: stringifyFields ((k2h, v2h) :: fs3)) ++ rbrace :: rest = _
      simp
    rw [hl, h0, skipWs_cons dquote _ (by decide)]
    dsimp only
    rw [if_pos rfl, parseStringBody_escape k
      (':' :: (stringifyVal v ++ ',' :: (stringifyFields ((k2h, v2h) :: fs3) ++
        rbrace :: rest)))]
    show (do
        let (v2, r5) ← parseVal f (stringifyVal v ++
          ',' :: (stringifyFields ((k2h, v2h) :: fs3) ++ rbrace :: rest))
        match skipWs r5 with
        | ',' :: r6 => (parseFields f (',' :: r6)).map (fun p => ((k, v2) :: p.1, p.2))
        | c2 :: r6 => if c2 = rbrace then some ([(k, v2)], r6) else none
        | [] => none) = some ((k, v) :: (k2h, v2h) :: fs3, rest)
    rw [parseVal_stringify v f
      (',' :: (stringifyFields ((k2h, v2h) :: fs3) ++ rbrace :: rest))
      (by simp only [sizeJF] at hf; omega) rfl]
    show (parseFields f (',' :: (stringifyFields ((k2h, v2h) :: fs3) ++ rbrace :: rest))).map
        (fun p => ((k, v) :: p.1, p.2)) = some ((k, v) :: (k2h, v2h) :: fs3, rest)
    rw [parseFields_stringify ((k2h, v2h) :: fs3) f rest ',' (by simp)
      (by simp only [sizeJF] at hf ⊢; omega)]
    rfl

end

mutual

/-- The size of a value is covered by its serialised length. -/
theorem sizeJ_le_length (v : JsonVal) : sizeJ v ≤ (stringifyVal v).length := by
  cases v with
  | null => decide
  | bool b => cases b <;> decide
  | num n =>
    obtain ⟨c, t, hv, -⟩ := num_head n
    rw [show stringifyVal (.num n) = intChars n from rfl, hv]
    simp [sizeJ]
  | str s =>
    rw [show stringifyVal (.str s) = dquote :: (escapeList s ++ [dquote]) from rfl]
    simp [sizeJ]
  | arr vs =>
    rw [show stringifyVal (.arr vs) = '[' :: (stringifyElems vs ++ [']']) from rfl]
    simp only [sizeJ, List.length_cons, List.length_append, List.length_singleton]
    have := sizeJL_le_length vs
    omega
  | obj fs =>
    rw [show stringifyVal (.obj fs) = lbrace :: (stringifyFields fs ++ [rbrace]) from rfl]
    simp only [sizeJ, List.length_cons, List.length_append, List.length_singleton]
    have := sizeJF_le_length fs
    omega

/-- The size of an element list is covered by its serialised length. -/
theorem sizeJL_le_length (vs : List JsonVal) :
    sizeJL vs ≤ (stringifyElems vs).length + 1 := by
  rcases vs with _ | ⟨v, vs2⟩
  · decide
  rcases vs2 with _ | ⟨v2, vs3⟩
  · rw [show stringifyElems [v] = stringifyVal v from rfl]
    simp only [sizeJL]
    have := sizeJ_le_length v
    omega
  · rw [show stringifyElems (v :: v2 :: vs3) =
      stringifyVal v ++ ',' :: stringifyElems (v2 :: vs3) from rfl]
    simp only [sizeJL, List.length_append, List.length_cons]
    have h1 := sizeJ_le_length v
    have h2 := sizeJL_le_length (v2 :: vs3)
    simp only [sizeJL] at h2
    omega

/-- The size of a field list is covered by its serialised length. -/
theorem sizeJF_le_length (fs : List (List Char × JsonVal)) :
    sizeJF fs ≤ (stringifyFields fs).length + 1 := by
  rcases fs with _ | ⟨⟨k, v⟩, fs2⟩
  · decide
  rcases fs2 with _ | ⟨⟨k2, v2⟩, fs3⟩
  · rw [show stringifyFields [(k, v)] =
      dquote :: (escapeList k ++ dquote :: ':' :: stringifyVal v) from rfl]
    simp only [sizeJF, List.length_cons, List.length_append]
    have := sizeJ_le_length v
    omega
  · rw [show stringifyFields ((k, v) :: (k2, v2) :: fs3) =
      dquote :: escapeList k ++ dquote :: ':' :: stringifyVal v ++
        ',' :: stringifyFields ((k2, v2) :: fs3) from rfl]
    simp only [sizeJF, List.length_cons, List.length_append]
    have h1 := sizeJ_le_length v
    have h2 := sizeJF_le_length ((k2, v2) :: fs3)
    simp only [sizeJF] at h2
    omega

end

/-- `JSON.parse` inverts `JSON.stringify` over the modelled values. -/
theorem parseJson_stringify (v : JsonVal) : parseJson (stringifyVal v) = some v := by
  unfold parseJson
  have h := parseVal_stringify v ((stringifyVal v).length + 1) []
    (by have := sizeJ_le_length v; omega) rfl
  rw [List.append_nil] at h
  rw [h]
  rfl

/-! ## Claim C9: base64url round trip -/

/-- Decoding inverts the alphabet map. -/
theorem base64Index_char : ∀ n < 64, base64Index (base64Char n) = some n := by decide

/-- Alphabet characters are not padding. -/
theorem base64Char_ne_pad : ∀ n < 64, (base64Char n == '=') = false := by decide

/-- Alphabet characters are not whitespace. -/
theorem base64Char_not_ws : ∀ n < 64, (!(isAsciiWs (base64Char n))) = true := by decide

/-- The two url-encoding character substitutions followed by the two
decoding substitutions are the identity on the alphabet. -/
theorem urlRound64 : ∀ n < 64,
    ((((fun c => if c = '_' then '/' else c) ∘ (fun c => if c = '-' then '+' else c)) ∘
      (fun c => if c = '/' then '_' else c)) ∘ (fun c => if c = '+' then '-' else c))
      (base64Char n) = id (base64Char n) := by
  decide

/-- Every character that `btoa` emits is padding or an alphabet
character. -/
theorem btoa_chars : ∀ (bytes : List Nat), (∀ x ∈ bytes, x < 256) →
    ∀ c ∈ btoa bytes, c = '=' ∨ ∃ n, n < 64 ∧ c = base64Char n
  | [] => by simp [btoa]
  | [b0] => by
    intro hb c hc
    have h0 : b0 < 256 := hb b0 (by simp)
    simp only [btoa, List.mem_cons, List.not_mem_nil, or_false] at hc
    rcases hc with rfl | rfl | rfl | rfl
    · exact Or.inr ⟨b0 / 4, by omega, rfl⟩
    · exact Or.inr ⟨b0 % 4 * 16, by omega, rfl⟩
    · exact Or.inl rfl
    · exact Or.inl rfl
  | [b0, b1] => by
    intro hb c hc
    have h0 : b0 < 256 := hb b0 (by simp)
    have h1 : b1 < 256 := hb b1 (by simp)
    simp only [btoa, List.mem_cons, List.not_mem_nil, or_false] at hc
    rcases hc with rfl | rfl | rfl | rfl
    · exact Or.inr ⟨b0 / 4, by omega, rfl⟩
    · exact Or.inr ⟨b0 % 4 * 16 + b1 / 16, by omega, rfl⟩
    · exact Or.inr ⟨b1 % 16 * 4, by omega, rfl⟩
    · exact Or.inl rfl
  | b0 :: b1 :: b2 :: rest => by
    intro hb c hc
    have h0 : b0 < 256 := hb b0 (by simp)
    have h1 : b1 < 256 := hb b1 (by simp)
    have h2 : b2 < 256 := hb b2 (by simp)
    simp only [btoa, List.mem_cons] at hc
    rcases hc with rfl | rfl | rfl | rfl | hc
    · exact Or.inr ⟨b0 / 4, by omega, rfl⟩
    · exact Or.inr ⟨b0 % 4 * 16 + b1 / 16, by omega, rfl⟩
    · exact Or.inr ⟨b1 % 16 * 4 + b2 / 64, by omega, rfl⟩
    · exact Or.inr ⟨b2 % 64, by omega, rfl⟩
    · exact btoa_chars rest (fun x hx => hb x (by simp [hx])) c hc

/-- Padding removal is the identity on a padding-free input. -/
theorem stripPad_no_pad (t : List Char) (h : '=' ∉ t) : stripPad t = t := by
  unfold stripPad
  split
  · split
    · rename_i r heq
      exact absurd (List.mem_reverse.mp (heq ▸ List.mem_cons_self '=' _)) h
    · rename_i r heq
      exact absurd (List.mem_reverse.mp (heq ▸ List.mem_cons_self '=' _)) h
    · rfl
  · rfl

/-- The unpadded base64 of a byte list, mapped back through the
alphabet, reassembles the original bytes. -/
theorem atob_filter_btoa : ∀ (bytes : List Nat), (∀ x ∈ bytes, x < 256) →
    (mapMOpt base64Index ((btoa bytes).filter (fun c => !(c == '=')))).bind sextetsToBytes
      = some bytes
  | [] => by intro _; rfl
  | [b0] => by
    intro hb
    have h0 : b0 < 256 := hb b0 (by simp)
    have hs1 : b0 / 4 < 64 := by omega
    have hs2 : b0 % 4 * 16 < 64 := by omega
    have hf : (btoa [b0]).filter (fun c => !(c == '=')) =
        [base64Char (b0 / 4), base64Char (b0 % 4 * 16)] := by
      simp [btoa, List.filter, base64Char_ne_pad _ hs1, base64Char_ne_pad _ hs2]
    rw [hf]
    have hmm : mapMOpt base64Index [base64Char (b0 / 4), base64Char (b0 % 4 * 16)] =
        some [b0 / 4, b0 % 4 * 16] := by
      simp [mapMOpt, base64Index_char _ hs1, base64Index_char _ hs2]
    rw [hmm]
    show some [b0 / 4 * 4 + b0 % 4 * 16 / 16] = some [b0]
    rw [show b0 / 4 * 4 + b0 % 4 * 16 / 16 = b0 from by omega]
  | [b0, b1] => by
    intro hb
    have h0 : b0 < 256 := hb b0 (by simp)
    have h1 : b1 < 256 := hb b1 (by simp)
    have hs1 : b0 / 4 < 64 := by omega
    have hs2 : b0 % 4 * 16 + b1 / 16 < 64 := by omega
    have hs3 : b1 % 16 * 4 < 64 := by omega
    have hf : (btoa [b0, b1]).filter (fun c => !(c == '=')) =
        [base64Char (b0 / 4), base64Char (b0 % 4 * 16 + b1 / 16),
          base64Char (b1 % 16 * 4)] := by
      simp [btoa, List.filter, base64Char_ne_pad _ hs1, base64Char_ne_pad _ hs2,
        base64Char_ne_pad _ hs3]
    rw [hf]
    have hmm : mapMOpt base64Index [base64Char (b0 / 4), base64Char (b0 % 4 * 16 + b1 / 16),
        base64Char (b1 % 16 * 4)] = some [b0 / 4, b0 % 4 * 16 + b1 / 16, b1 % 16 * 4] := by
      simp [mapMOpt, base64Index_char _ hs1, base64Index_char _ hs2, base64Index_char _ hs3]
    rw [hmm]
    show sextetsToBytes [b0 / 4, b0 % 4 * 16 + b1 / 16, b1 % 16 * 4] = some [b0, b1]
    have e1 : b0 / 4 * 4 + (b0 % 4 * 16 + b1 / 16) / 16 = b0 := by omega
    have e2 : (b0 % 4 * 16 + b1 / 16) % 16 * 16 + b1 % 16 * 4 / 4 = b1 := by omega
    show some [b0 / 4 * 4 + (b0 % 4 * 16 + b1 / 16) / 16,
      (b0 % 4 * 16 + b1 / 16) % 16 * 16 + b1 % 16 * 4 / 4] = some [b0, b1]
    rw [e1, e2]
  | b0 :: b1 :: b2 :: rest => by
    intro hb
    have h0 : b0 < 256 := hb b0 (by simp)
    have h1 : b1 < 256 := hb b1 (by simp)
    have h2 : b2 < 256 := hb b2 (by simp)
    have hs1 : b0 / 4 < 64 := by omega
    have hs2 : b0 % 4 * 16 + b1 / 16 < 64 := by omega
    have hs3 : b1 % 16 * 4 + b2 / 64 < 64 := by omega
    have hs4 : b2 % 64 < 64 := by omega
    have ih := atob_filter_btoa rest (fun x hx => hb x (by simp [hx]))
    have hf : (btoa (b0 :: b1 :: b2 :: rest)).filter (fun c => !(c == '=')) =
        base64Char (b0 / 4) :: base64Char (b0 % 4 * 16 + b1 / 16) ::
          base64Char (b1 % 16 * 4 + b2 / 64) :: base64Char (b2 % 64) ::
          (btoa rest).filter (fun c => !(c == '=')) := by
      simp [btoa, List.filter_cons, base64Char_ne_pad _ hs1, base64Char_ne_pad _ hs2,
        base64Char_ne_pad _ hs3, base64Char_ne_pad _ hs4]
    rw [hf]
    rcases hm : mapMOpt base64Index ((btoa rest).filter (fun c => !(c == '='))) with _ | L
    · rw [hm] at ih
      simp at ih
    · rw [hm] at ih
      replace ih : sextetsToBytes L = some rest := ih
      have hmm : mapMOpt base64Index (base64Char (b0 / 4) ::
          base64Char (b0 % 4 * 16 + b1 / 16) :: base64Char (b1 % 16 * 4 + b2 / 64) ::
          base64Char (b2 % 64) :: (btoa rest).filter (fun c => !(c == '='))) =
          some (b0 / 4 :: (b0 % 4 * 16 + b1 / 16) :: (b1 % 16 * 4 + b2 / 64) ::
            b2 % 64 :: L) := by
        simp [mapMOpt, base64Index_char _ hs1, base64Index_char _ hs2,
          base64Index_char _ hs3, base64Index_char _ hs4, hm]
      rw [hmm]
      show sextetsToBytes (b0 / 4 :: (b0 % 4 * 16 + b1 / 16) ::
        (b1 % 16 * 4 + b2 / 64) :: b2 % 64 :: L) = some (b0 :: b1 :: b2 :: rest)
      rw [show sextetsToBytes (b0 / 4 :: (b0 % 4 * 16 + b1 / 16) ::
          (b1 % 16 * 4 + b2 / 64) :: b2 % 64 :: L) =
          (sextetsToBytes L).map (fun bs =>
            (b0 / 4 * 4 + (b0 % 4 * 16 + b1 / 16) / 16) ::
            ((b0 % 4 * 16 + b1 / 16) % 16 * 16 + (b1 % 16 * 4 + b2 / 64) / 4) ::
            ((b1 % 16 * 4 + b2 / 64) % 4 * 64 + b2 % 64) :: bs) from rfl]
      rw [ih]
      have e1 : b0 / 4 * 4 + (b0 % 4 * 16 + b1 / 16) / 16 = b0 := by omega
      have e2 : (b0 % 4 * 16 + b1 / 16) % 16 * 16 + (b1 % 16 * 4 + b2 / 64) / 4 = b1 := by
        omega
      have e3 : (b1 % 16 * 4 + b2 / 64) % 4 * 64 + b2 % 64 = b2 := by omega
      show some ((b0 / 4 * 4 + (b0 % 4 * 16 + b1 / 16) / 16) ::
        ((b0 % 4 * 16 + b1 / 16) % 16 * 16 + (b1 % 16 * 4 + b2 / 64) / 4) ::
        ((b1 % 16 * 4 + b2 / 64) % 4 * 64 + b2 % 64) :: rest) = some (b0 :: b1 :: b2 :: rest)
      rw [e1, e2, e3]

/-- C9: base64url decoding inverts base64url encoding on every byte
sequence, whatever padding its standard base64 form would carry. -/
theorem c9_base64url_roundtrip (b : List Nat) (hb : ∀ x ∈ b, x < 256) :
    base64UrlToUint8Array (arrayBufferToBase64Url b) = some b := by
  have hmem : ∀ c ∈ (btoa b).filter (fun c => !(c == '=')), ∃ n, n < 64 ∧ c = base64Char n := by
    intro c hc
    rcases btoa_chars b hb c (List.mem_of_mem_filter hc) with h | h
    · subst h
      have := List.of_mem_filter hc
      simp at this
    · exact h
  have hnoeq : '=' ∉ (btoa b).filter (fun c => !(c == '=')) := by
    intro hc
    have := List.of_mem_filter hc
    simp at this
  have hnows : List.filter (fun c => !(isAsciiWs c)) ((btoa b).filter (fun c => !(c == '='))) =
      (btoa b).filter (fun c => !(c == '=')) := by
    rw [List.filter_eq_self]
    intro c hc
    obtain ⟨n, hn, rfl⟩ := hmem c hc
    exact base64Char_not_ws n hn
  unfold base64UrlToUint8Array arrayBufferToBase64Url arrayBufferToBase64String
    base64StringToUint8Array atob replaceChar stripWs
  rw [List.map_map, List.map_map, List.map_map]
  have h1 : ∀ c ∈ (btoa b).filter (fun c => !(c == '=')),
      ((((fun c => if c = '_' then '/' else c) ∘ (fun c => if c = '-' then '+' else c)) ∘
        (fun c => if c = '/' then '_' else c)) ∘ (fun c => if c = '+' then '-' else c)) c =
        id c := by
    intro c hc
    obtain ⟨n, hn, rfl⟩ := hmem c hc
    exact urlRound64 n hn
  rw [List.map_congr_left h1, List.map_id, hnows, hnows, stripPad_no_pad _ hnoeq]
  exact atob_filter_btoa b hb

/-- Witness for C9 at lengths whose standard base64 carries two, one and
zero padding characters. -/
theorem c9_base64url_roundtrip_witness :
    base64UrlToUint8Array (arrayBufferToBase64Url [1]) = some [1] ∧
    base64UrlToUint8Array (arrayBufferToBase64Url [1, 2]) = some [1, 2] ∧
    base64UrlToUint8Array (arrayBufferToBase64Url [251, 255, 254]) = some [251, 255, 254] :=
  ⟨c9_base64url_roundtrip [1] (by decide), c9_base64url_roundtrip [1, 2] (by decide),
   c9_base64url_roundtrip [251, 255, 254] (by decide)⟩

/-! ## Claim C4: totality of `decode` -/

/-- `split` never returns an empty array. -/
theorem splitOn_ne_nil (sep : Char) (s : List Char) : splitOn sep s ≠ [] := by
  induction s with
  | nil => simp [splitOn]
  | cons c r ih =>
    rcases hsp : splitOn sep r with _ | ⟨h, t⟩
    · exact absurd hsp ih
    · by_cases hc : c = sep <;> simp [splitOn, hc, hsp]

/-- `split` on the dot yields a second piece exactly when the input
contains a dot. -/
theorem splitOn_two_iff (s : List Char) :
    (∃ p0 p1 rest, splitOn '.' s = p0 :: p1 :: rest) ↔ '.' ∈ s := by
  induction s with
  | nil =>
    simp only [splitOn, List.not_mem_nil, iff_false]
    rintro ⟨p0, p1, rest, h⟩
    cases h
  | cons c r ih =>
    by_cases hc : c = '.'
    · subst hc
      simp only [splitOn, if_pos rfl, List.mem_cons, true_or, iff_true]
      rcases hsp : splitOn '.' r with _ | ⟨h, t⟩
      · exact absurd hsp (splitOn_ne_nil _ _)
      · exact ⟨[], h, t, rfl⟩
    · rcases hsp : splitOn '.' r with _ | ⟨h, t⟩
      · exact absurd hsp (splitOn_ne_nil _ _)
      · simp only [splitOn, if_neg hc, hsp, List.mem_cons]
        constructor
        · rintro ⟨p0, p1, rest, heq⟩
          injection heq with h1 h2
          subst h2
          exact Or.inr (ih.mp ⟨h, p1, rest, hsp⟩)
        · rintro (hcc | hr)
          · exact absurd hcc.symm hc
          · obtain ⟨p0, p1, rest, heq⟩ := ih.mpr hr
            rw [hsp] at heq
            injection heq with h1 h2
            exact ⟨c :: h, p1, rest, by rw [h2]⟩

/-- C4 (amended): `decode` returns a (possibly partially absent)
structure exactly for the tokens that contain at least one dot, and on
those it returns the independent decode of the first two segments, each
absent when its base64 or JSON fails; on a dot-less string, the member
access `split(".")[1].replace` throws a TypeError, so `decode` is not
total over arbitrary strings. -/
theorem c4_decode_totality :
    (∀ t : List Char, (decodeM t).isSome ↔ '.' ∈ t) ∧
    (∀ (t p0 p1 : List Char) (rest : List (List Char)), splitOn '.' t = p0 :: p1 :: rest →
      decodeM t =
        some { header := decodePayload (b64SegFix p0),
               payload := decodePayload (b64SegFix p1) }) := by
  refine ⟨fun t => ?_, decodeM_of_split⟩
  rw [← splitOn_two_iff]
  unfold decodeM
  rcases hsp : splitOn '.' t with _ | ⟨p0, t'⟩
  · exact absurd hsp (splitOn_ne_nil _ _)
  · rcases t' with _ | ⟨p1, rest⟩
    · simp
    · simp

/-- Witness for C4 on the token "a.b": decoding succeeds and both
segments (invalid base64url of length 1) come back absent. -/
theorem c4_decode_totality_witness :
    (decodeM (cs "a.b")).isSome ∧
    decodeM (cs "a.b") =
      some { header := decodePayload (b64SegFix (cs "a")),
             payload := decodePayload (b64SegFix (cs "b")) } :=
  ⟨(c4_decode_totality.1 (cs "a.b")).mpr (by decide),
   c4_decode_totality.2 (cs "a.b") (cs "a") (cs "b") [] (by decide)⟩

/-- Counterexample for C4 as stated: on the dot-less string "abc",
`decode` throws (modelled as `none`) instead of returning a structure
with absent segments. -/
theorem c4_counterexample : decodeM (cs "abc") = none := by decide

/-! ## Claims C6 and C10: `iat` handling and payload mutation in `sign` -/

/-- Writing a key that is absent appends it, preserving insertion
order. -/
theorem setField_of_absent (fields : List (List Char × JsonVal)) (k : List Char) (v : JsonVal)
    (h : lookupLast fields k = none) : setField fields k v = fields ++ [(k, v)] := by
  induction fields with
  | nil => rfl
  | cons kv rest ih =>
    obtain ⟨k2, v2⟩ := kv
    simp only [lookupLast] at h
    rcases hr : lookupLast rest k with _ | r
    · rw [hr] at h
      by_cases hk : k2 = k
      · simp [hk] at h
      · simp [setField, hk, ih hr]
    · rw [hr] at h; cases h

/-- Looking up the appended key finds the appended value. -/
theorem lookupLast_append_self (fields : List (List Char × JsonVal)) (k : List Char)
    (v : JsonVal) : lookupLast (fields ++ [(k, v)]) k = some v := by
  induction fields with
  | nil => simp [lookupLast]
  | cons kv rest ih =>
    obtain ⟨k2, v2⟩ := kv
    simp [lookupLast, ih]

/-- Looking up any other key ignores the appended pair. -/
theorem lookupLast_append_other (fields : List (List Char × JsonVal)) (k k' : List Char)
    (v : JsonVal) (h : k' ≠ k) :
    lookupLast (fields ++ [(k, v)]) k' = lookupLast fields k' := by
  induction fields with
  | nil => simp [lookupLast, Ne.symm h]
  | cons kv rest ih =>
    obtain ⟨k2, v2⟩ := kv
    simp [lookupLast, ih]

/-- Inversion for a successful `sign`: the caller's payload object after
the call is the original with `iat` written when the original `iat` was
falsy, and is unchanged otherwise. -/
theorem signModel_payloadAfter (sig : List Nat → List Nat) (now : Int)
    (fields : List (List Char × JsonVal)) (secret : SecretInput) (opts : JwtSignOptionsM)
    (tok : List Char) (pAfter : JsonVal)
    (hok : signModel sig now (some (.obj fields)) secret opts = .ok tok pAfter) :
    pAfter = (if jsTruthyOpt (lookupLast fields (cs "iat")) then JsonVal.obj fields
              else .obj (setField fields (cs "iat") (.num now))) := by
  simp only [signModel, getProp, jsonSetProp] at hok
  split at hok
  · cases hok
  · split at hok
    · cases hok
    · split at hok
      · cases hok
      · split at hok <;>
        · injection hok with h1 h2
          subst h2
          split <;> simp_all

/-- C6 (amended): at sign time an absent `iat` is appended with the
current Unix timestamp; a present truthy `iat` (any nonzero number) is
preserved unchanged; but a present falsy `iat` — in particular the value
0 — is overwritten with the current timestamp, because the source guard
is the truthiness test `if (!payload.iat)`. -/
theorem c6_sign_iat (sig : List Nat → List Nat) (now : Int)
    (fields : List (List Char × JsonVal)) (secret : SecretInput) (opts : JwtSignOptionsM)
    (tok : List Char) (pAfter : JsonVal)
    (hok : signModel sig now (some (.obj fields)) secret opts = .ok tok pAfter) :
    (lookupLast fields (cs "iat") = none →
      pAfter = .obj (fields ++ [(cs "iat", .num now)])) ∧
    (∀ v, lookupLast fields (cs "iat") = some v → jsTruthy v = true →
      pAfter = .obj fields) ∧
    (∀ v, lookupLast fields (cs "iat") = some v → jsTruthy v = false →
      pAfter = .obj (setField fields (cs "iat") (.num now))) := by
  have h := signModel_payloadAfter sig now fields secret opts tok pAfter hok
  refine ⟨fun habs => ?_, fun v hv htru => ?_, fun v hv hfal => ?_⟩
  · rw [h, if_neg (by simp [habs, jsTruthyOpt]), setField_of_absent fields _ _ habs]
  · rw [h, if_pos (by simp [hv, jsTruthyOpt, htru])]
  · rw [h, if_neg (by simp [hv, jsTruthyOpt, hfal])]

/-- Witness for C6: a truthy `iat` of 42 is preserved. -/
theorem c6_sign_iat_witness : c6pA = .obj [(cs "iat", .num 42)] :=
  (c6_sign_iat (fun _ => [7]) 1000 [(cs "iat", .num 42)] (.str (cs "k")) {} c6tok c6pA
    (by decide)).2.1 (.num 42) (by decide) (by decide)

/-- Counterexample for C6 as stated: a present `iat` of 0 is not
preserved — after signing at time 1000 the caller's payload carries
`iat: 1000`. -/
theorem c6_counterexample :
    (match signModel (fun _ => [7]) 1000 (some (.obj [(cs "iat", .num 0)]))
        (.str (cs "k")) {} with
     | .ok _ pA => getProp pA (cs "iat")
     | _ => none) = some (.num 1000) ∧ JsonVal.num 1000 ≠ JsonVal.num 0 := by
  constructor
  · decide
  · decide

/-- C10: when `iat` is absent, `sign` writes it into the caller's own
payload mapping (modelled by the returned post-call payload state): the
mapping gains a trailing `iat` field with the current timestamp and all
other fields are unchanged. -/
theorem c10_sign_mutates_payload (sig : List Nat → List Nat) (now : Int)
    (fields : List (List Char × JsonVal)) (secret : SecretInput) (opts : JwtSignOptionsM)
    (tok : List Char) (pAfter : JsonVal)
    (habs : lookupLast fields (cs "iat") = none)
    (hok : signModel sig now (some (.obj fields)) secret opts = .ok tok pAfter) :
    pAfter = .obj (fields ++ [(cs "iat", .num now)]) ∧
    getProp pAfter (cs "iat") = some (.num now) ∧
    (∀ k, k ≠ cs "iat" → getProp pAfter k = getProp (.obj fields) k) := by
  have h := signModel_payloadAfter sig now fields secret opts tok pAfter hok
  rw [if_neg (by simp [habs, jsTruthyOpt]), setField_of_absent fields _ _ habs] at h
  refine ⟨h, ?_, fun k hk => ?_⟩
  · rw [h]; exact lookupLast_append_self fields _ _
  · rw [h]; exact lookupLast_append_other fields _ k _ hk

/-- Witness for C10 at a concrete payload. -/
theorem c10_sign_mutates_payload_witness :
    c10pA = .obj ([(cs "sub", .str (cs "me"))] ++ [(cs "iat", .num 7)]) ∧
    getProp c10pA (cs "iat") = some (.num 7) ∧
    getProp c10pA (cs "sub") = getProp (.obj [(cs "sub", .str (cs "me"))]) (cs "sub") :=
  ⟨(c10_sign_mutates_payload (fun _ => [7]) 7 [(cs "sub", .str (cs "me"))] (.str (cs "k")) {}
      c10tok c10pA (by decide) (by decide)).1,
   (c10_sign_mutates_payload (fun _ => [7]) 7 [(cs "sub", .str (cs "me"))] (.str (cs "k")) {}
      c10tok c10pA (by decide) (by decide)).2.1,
   (c10_sign_mutates_payload (fun _ => [7]) 7 [(cs "sub", .str (cs "me"))] (.str (cs "k")) {}
      c10tok c10pA (by decide) (by decide)).2.2 (cs "sub") (by decide)⟩

/-! ## Claim C7: BER length forms in `parseElement` -/

/-- C7 (code evaluated at the failing input): the spec requires
`parseElement` to decode the indefinite length form (length byte exactly
0x80, contents up to a double-zero terminator).  On the five-byte
element 30 80 01 00 00 — SEQUENCE, indefinite length, one content byte
01, terminator 00 00 — a BER decoder must return contents [0x01] and
consume all five bytes.  The source instead guards the indefinite branch
with `length === 0x80` immediately after `let length = 0`, so that
branch is unreachable: the element is parsed as long form with zero
length bytes, giving empty contents and byte length 2. -/
theorem c7_parseElement_indefinite_unreachable :
    parseElement [48, 128, 1, 0, 0] =
      some { byteLength := 2, contents := [], raw := [48, 128] } := by
  decide

/-! ## Claim C8: `importKey` dispatch -/

/-- C8: `importKey` dispatches on the key's shape in source order: an
object is imported as a JWK; a non-object non-string fails with the
unsupported-key-type error; then, for strings, the `PUBLIC` marker
selects SPKI public-key import, else the `PRIVATE` marker PKCS8
private-key import, else the PEM certificate marker line
`-----BEGIN CERTIFICATE-----` the certificate path (extract the embedded
SPKI key and import it), and any other string is imported as a raw
secret. -/
theorem c8_importKey_dispatch :
    (∀ j, importKeyM (.obj j) = .jwk j) ∧
    (importKeyM .other = .unsupported) ∧
    (∀ s, containsSub s (cs "PUBLIC") = true → importKeyM (.str s) = .spki s) ∧
    (∀ s, containsSub s (cs "PUBLIC") = false → containsSub s (cs "PRIVATE") = true →
      importKeyM (.str s) = .pkcs8 s) ∧
    (∀ s, containsSub s (cs "PUBLIC") = false → containsSub s (cs "PRIVATE") = false →
      containsSub s (cs "-----BEGIN CERTIFICATE-----") = true →
      importKeyM (.str s) = .x509spki s) ∧
    (∀ s, containsSub s (cs "PUBLIC") = false → containsSub s (cs "PRIVATE") = false →
      containsSub s (cs "-----BEGIN CERTIFICATE-----") = false →
      importKeyM (.str s) = .raw s) := by
  refine ⟨fun j => rfl, rfl, ?_, ?_, ?_, ?_⟩
  · intro s h; simp [importKeyM, h]
  · intro s h1 h2; simp [importKeyM, h1, h2]
  · intro s h1 h2 h3; simp [importKeyM, h1, h2, h3]
  · intro s h1 h2 h3; simp [importKeyM, h1, h2, h3]

/-- Witness for C8: each string branch exercised on a concrete key. -/
theorem c8_importKey_dispatch_witness :
    importKeyM (.str (cs "my PUBLIC key")) = .spki (cs "my PUBLIC key") ∧
    importKeyM (.str (cs "a PRIVATE key")) = .pkcs8 (cs "a PRIVATE key") ∧
    importKeyM (.str (cs "-----BEGIN CERTIFICATE-----")) =
      .x509spki (cs "-----BEGIN CERTIFICATE-----") ∧
    importKeyM (.str (cs "hmac-secret")) = .raw (cs "hmac-secret") :=
  ⟨c8_importKey_dispatch.2.2.1 _ (by decide),
   c8_importKey_dispatch.2.2.2.1 _ (by decide) (by decide),
   c8_importKey_dispatch.2.2.2.2.1 _ (by decide) (by decide) (by decide),
   c8_importKey_dispatch.2.2.2.2.2 _ (by decide) (by decide) (by decide)⟩

/-! ## Claim C3: sign/decode round trip -/

/-- The two url-encoding substitutions never produce a dot. -/
theorem urlChar_ne_dot : ∀ n < 64,
    ¬ (((fun c => if c = '/' then '_' else c) ∘ (fun c => if c = '+' then '-' else c))
      (base64Char n)) = '.' := by
  decide

/-- A base64url-encoded segment contains no dot. -/
theorem textToBase64Url_no_dot (s : List Char) :
    ∀ c ∈ textToBase64Url s, ¬ c = '.' := by
  intro c hc
  unfold textToBase64Url replaceChar at hc
  rw [List.map_map] at hc
  obtain ⟨c0, hc0, rfl⟩ := List.mem_map.mp hc
  rcases btoa_chars (utf8Encode s) (utf8Encode_lt256 s) c0 (List.mem_of_mem_filter hc0)
    with h | ⟨n, hn, rfl⟩
  · subst h
    have := List.of_mem_filter hc0
    simp at this
  · exact urlChar_ne_dot n hn

/-- `split` on a string free of the separator returns the whole
string. -/
theorem splitOn_no_sep (sep : Char) (a : List Char) (h : ∀ c ∈ a, ¬ c = sep) :
    splitOn sep a = [a] := by
  induction a with
  | nil => rfl
  | cons c r ih =>
    simp [splitOn, h c (by simp), ih (fun x hx => h x (by simp [hx]))]

/-- `split` peels off a separator-free prefix before the first
separator. -/
theorem splitOn_append (sep : Char) (a b : List Char) (h : ∀ c ∈ a, ¬ c = sep) :
    splitOn sep (a ++ sep :: b) = a :: splitOn sep b := by
  induction a with
  | nil => simp [splitOn]
  | cons c r ih =>
    simp [splitOn, h c (by simp), ih (fun x hx => h x (by simp [hx]))]

/-- Decoding a url-fixed, unpadded base64url segment recovers the
encoded bytes. -/
theorem atob_segfix_text (s : List Char) :
    atob (b64SegFix (textToBase64Url s)) = some (utf8Encode s) := by
  have hb := utf8Encode_lt256 s
  have hmem : ∀ c ∈ (btoa (utf8Encode s)).filter (fun c => !(c == '=')),
      ∃ n, n < 64 ∧ c = base64Char n := by
    intro c hc
    rcases btoa_chars (utf8Encode s) hb c (List.mem_of_mem_filter hc) with h | h
    · subst h
      have := List.of_mem_filter hc
      simp at this
    · exact h
  have hnoeq : '=' ∉ (btoa (utf8Encode s)).filter (fun c => !(c == '=')) := by
    intro hc
    have := List.of_mem_filter hc
    simp at this
  have hnows : List.filter (fun c => !(isAsciiWs c))
      ((btoa (utf8Encode s)).filter (fun c => !(c == '='))) =
      (btoa (utf8Encode s)).filter (fun c => !(c == '=')) := by
    rw [List.filter_eq_self]
    intro c hc
    obtain ⟨n, hn, rfl⟩ := hmem c hc
    exact base64Char_not_ws n hn
  unfold b64SegFix textToBase64Url atob replaceChar
  rw [List.map_map, List.map_map, List.map_map]
  have h1 : ∀ c ∈ (btoa (utf8Encode s)).filter (fun c => !(c == '=')),
      ((((fun c => if c = '_' then '/' else c) ∘ (fun c => if c = '-' then '+' else c)) ∘
        (fun c => if c = '/' then '_' else c)) ∘ (fun c => if c = '+' then '-' else c)) c =
        id c := by
    intro c hc
    obtain ⟨n, hn, rfl⟩ := hmem c hc
    exact urlRound64 n hn
  rw [List.map_congr_left h1, List.map_id, hnows, stripPad_no_pad _ hnoeq]
  exact atob_filter_btoa (utf8Encode s) hb

/-- `decodePayload` of the url-fixed segment of a serialised value
recovers the value. -/
theorem decodePayload_segfix (v : JsonVal) :
    decodePayload (b64SegFix (textToBase64Url (stringifyVal v))) = some v := by
  unfold decodePayload
  rw [atob_segfix_text]
  show parseJson (utf8Decode (utf8Encode (stringifyVal v))) = some v
  rw [utf8_roundtrip, parseJson_stringify]

/-- Inversion for a successful `sign`: the token is the base64url header
and the base64url serialisation of the post-call payload, with the
base64url signature appended unless the algorithm is `none`. -/
theorem signModel_token (sig : List Nat → List Nat) (now : Int)
    (fields : List (List Char × JsonVal)) (secret : SecretInput) (opts : JwtSignOptionsM)
    (tok : List Char) (pAfter : JsonVal)
    (hok : signModel sig now (some (.obj fields)) secret opts = .ok tok pAfter) :
    ∃ hdr : JsonVal,
      tok = textToBase64Url (stringifyVal hdr) ++ '.' ::
          textToBase64Url (stringifyVal pAfter) ∨
      ∃ sg, tok = textToBase64Url (stringifyVal hdr) ++ '.' ::
          (textToBase64Url (stringifyVal pAfter) ++ '.' :: sg) := by
  simp only [signModel] at hok
  split at hok
  · cases hok
  · split at hok
    · cases hok
    · split at hok
      · cases hok
      · split at hok
        · injection hok with h1 h2
          subst h2
          exact ⟨_, Or.inl h1.symm⟩
        · injection hok with h1 h2
          subst h2
          rw [List.append_assoc, List.cons_append] at h1
          exact ⟨_, Or.inr ⟨_, h1.symm⟩⟩

/-- `decode` applied to a token produced by a successful `sign` yields
the post-call payload as the decoded payload segment. -/
theorem decodeM_of_sign (sig : List Nat → List Nat) (now : Int)
    (fields : List (List Char × JsonVal)) (secret : SecretInput) (opts : JwtSignOptionsM)
    (tok : List Char) (pAfter : JsonVal)
    (hok : signModel sig now (some (.obj fields)) secret opts = .ok tok pAfter) :
    ∃ d, decodeM tok = some d ∧ d.payload = some pAfter := by
  obtain ⟨hdr, hshape⟩ := signModel_token sig now fields secret opts tok pAfter hok
  rcases hshape with h | ⟨sg, h⟩
  · subst h
    unfold decodeM
    rw [splitOn_append '.' _ _ (textToBase64Url_no_dot _),
      splitOn_no_sep '.' _ (textToBase64Url_no_dot _)]
    exact ⟨_, rfl, decodePayload_segfix pAfter⟩
  · subst h
    unfold decodeM
    rw [splitOn_append '.' _ _ (textToBase64Url_no_dot _),
      splitOn_append '.' _ _ (textToBase64Url_no_dot _)]
    exact ⟨_, rfl, decodePayload_segfix pAfter⟩

/-- C3 (amended): for every object payload, secret and supported
algorithm on which `sign` succeeds, `decode(sign(payload)).payload`
equals the payload with `iat` set to the current timestamp when the
original `iat` was absent or falsy (in particular `iat: 0`), and equals
the payload unchanged when the original `iat` was truthy.  The original
claim's "iat added if it was absent" misses the falsy-overwrite case. -/
theorem c3_roundtrip (sig : List Nat → List Nat) (now : Int)
    (fields : List (List Char × JsonVal)) (secret : SecretInput) (opts : JwtSignOptionsM)
    (tok : List Char) (pAfter : JsonVal)
    (hok : signModel sig now (some (.obj fields)) secret opts = .ok tok pAfter) :
    ∃ d, decodeM tok = some d ∧ d.payload = some pAfter ∧
      pAfter = (if jsTruthyOpt (lookupLast fields (cs "iat")) then JsonVal.obj fields
                else .obj (setField fields (cs "iat") (.num now))) := by
  obtain ⟨d, hd, hp⟩ := decodeM_of_sign sig now fields secret opts tok pAfter hok
  exact ⟨d, hd, hp, signModel_payloadAfter sig now fields secret opts tok pAfter hok⟩

/-- Witness for C3 at a concrete payload. -/
theorem c3_roundtrip_witness :
    ∃ d, decodeM c3tok = some d ∧ d.payload = some c3pA ∧
      c3pA = (if jsTruthyOpt (lookupLast [(cs "sub", .str (cs "me"))] (cs "iat"))
              then JsonVal.obj [(cs "sub", .str (cs "me"))]
              else .obj (setField [(cs "sub", .str (cs "me"))] (cs "iat") (.num 7))) :=
  c3_roundtrip (fun _ => [7]) 7 [(cs "sub", .str (cs "me"))] (.str (cs "k")) {}
    c3tok c3pA (by decide)

/-- Counterexample for C3 as stated: the payload `{iat: 0}` has `iat`
present, so the claim requires `decode(sign(P)).payload = P`; the code
returns the payload with `iat` overwritten to the signing time 1000. -/
theorem c3_counterexample :
    ∃ d, decodeM c3xtok = some d ∧
      d.payload = some (.obj [(cs "iat", .num 1000)]) ∧
      d.payload ≠ some (.obj [(cs "iat", .num 0)]) := by
  decide

end JwtModel
